import Mathlib

/-!
Shallow embedding of the blog-scraper content-extraction engine
(`app.py`: `_normalize_url`, `_get_img_src`, `_guess_ext_from_url`,
`extract_images`, `find_banner_url`, `clean_article`, `apply_placeholders`,
`extract_blog_content`) and proofs about it.

The DOM is modelled in first-child / next-sibling form (`Dom`), so every
traversal is a plain structural recursion.  Python strings are modelled as
Lean `String`s, with the handful of Python string operations the code uses
(`strip`, `startswith`, `in`, `split`, `lstrip`) re-implemented on the
underlying `List Char`.  BeautifulSoup attribute dictionaries are modelled
as insertion-ordered association lists with Python-dict update semantics
(keys are unique in any dictionary the library ever builds, and the model's
get/set/del operate uniformly on the first/all matching entries, which
coincides with dict behaviour on duplicate-free lists).
-/

namespace BlogScraper

/-! ### Python string primitives -/

/-- Whitespace test used for Python `str.strip()` / `str.split()`. -/
def wsB (c : Char) : Bool := c.isWhitespace

/-- `l` with leading and trailing characters satisfying `p` removed
(Python `str.strip()` at the character-list level, generalised over the
character class). -/
def stripP (p : Char → Bool) (l : List Char) : List Char :=
  ((l.dropWhile p).reverse.dropWhile p).reverse

/-- Python `s.strip()`. -/
def pyStrip (s : String) : String := ⟨stripP wsB s.data⟩

/-- Python `s.strip("\"' ")` — strip double quotes, single quotes, spaces. -/
def quoteSpace (c : Char) : Bool := c = '"' || c = '\'' || c = ' '

def pyStripQuoteSpace (s : String) : String := ⟨stripP quoteSpace s.data⟩

/-- Prefix test on character lists. -/
def isPrefixL : List Char → List Char → Bool
  | [], _ => true
  | _ :: _, [] => false
  | a :: as, b :: bs => a = b && isPrefixL as bs

/-- Python `s.startswith(pre)`. -/
def pyStartsWith (pre s : String) : Bool := isPrefixL pre.data s.data

/-- Substring test on character lists (Python `sub in s`). -/
def containsL (nd : List Char) : List Char → Bool
  | [] => nd.isEmpty
  | c :: rest => isPrefixL nd (c :: rest) || containsL nd rest

def pyContains (nd s : String) : Bool := containsL nd.data s.data

/-- Python `s.lower()` (ASCII case folding, as used on extensions). -/
def pyLower (s : String) : String := ⟨s.data.map Char.toLower⟩

/-! ### Attribute dictionaries (BeautifulSoup `tag.attrs`) -/

abbrev Attrs := List (String × String)

/-- `d.get(k)` — value of the first entry with key `k`. -/
def pyGet (d : Attrs) (k : String) : Option String :=
  match d.find? (fun p => p.1 = k) with
  | some p => some p.2
  | none => none

/-- `d[k] = v` — update in place when the key exists (keeping its
position, as Python dicts do), otherwise append. -/
def pySet (d : Attrs) (k v : String) : Attrs :=
  match d with
  | [] => [(k, v)]
  | p :: rest => if p.1 = k then (k, v) :: rest else p :: pySet rest k v

/-- `del d[k]` (no-op when the key is absent, matching the guarded
`if k in d: del d[k]` uses in the source). -/
def pyDel (d : Attrs) (k : String) : Attrs :=
  d.filter (fun p => ¬ p.1 = k)

/-! ### `_normalize_url` (app.py lines 23-32) -/

/-- `_normalize_url`: `None`/empty → `None`; strip; empty → `None`;
protocol-relative `//…` → `https://…`; accept only absolute http(s) URLs. -/
def normalize_url : Option String → Option String
  | none => none
  | some u =>
    if u = "" then none
    else
      let s := pyStrip u
      if s = "" then none
      else
        let s2 := if pyStartsWith "//" s then "https:" ++ s else s
        if pyStartsWith "http://" s2 || pyStartsWith "https://" s2 then some s2
        else none

/-! ### `_get_img_src` (app.py lines 34-48) -/

/-- `tag.get(k)` collapsed through Python truthiness: an absent attribute
and an empty string are both falsy in the `or`-chain. -/
def attrTruthy (a : Attrs) (k : String) : Option String :=
  match pyGet a k with
  | some s => if s = "" then none else some s
  | none => none

/-- First token of the first comma-separated entry of a `srcset` value:
`ss.split(",")[0].split()[0]`; an all-whitespace first chunk raises
IndexError in the source, which the surrounding `except` turns into `None`. -/
def firstSrcsetToken (ss : String) : Option String :=
  let chunk := ss.data.takeWhile (fun c => ¬ c = ',')
  let tok := (chunk.dropWhile wsB).takeWhile (fun c => ¬ wsB c)
  if tok.isEmpty then none else some ⟨tok⟩

/-- `_get_img_src` on the attribute dictionary of an `img` tag. -/
def get_img_src (a : Attrs) : Option String :=
  let src := (((attrTruthy a "src").orElse fun _ => attrTruthy a "data-src").orElse
      fun _ => attrTruthy a "data-lazy-src").orElse
      fun _ => (attrTruthy a "data-original").orElse fun _ => attrTruthy a "data-background"
  let src2 :=
    match src with
    | some s => some s
    | none =>
      match attrTruthy a "srcset" with
      | some ss => firstSrcsetToken ss
      | none => none
  normalize_url src2

/-! ### `_guess_ext_from_url` (app.py lines 50-60) -/

/-- Characters of `urlparse(u).path`: the fragment (`#…`) and query
(`?…`) are cut off; for absolute http(s) URLs the `scheme://netloc`
part is removed (the path starts at the first `/` after the authority). -/
def urlPathChars (u : List Char) : List Char :=
  let u1 := u.takeWhile (fun c => ¬ c = '#')
  let u2 := u1.takeWhile (fun c => ¬ c = '?')
  if isPrefixL "http://".data u2 then (u2.drop 7).dropWhile (fun c => ¬ c = '/')
  else if isPrefixL "https://".data u2 then (u2.drop 8).dropWhile (fun c => ¬ c = '/')
  else u2

/-- `os.path.splitext(path)[1]`: the suffix of the basename starting at its
last dot, provided some non-dot character precedes that dot in the basename. -/
def splitextExt (path : List Char) : List Char :=
  let revBase := path.reverse.takeWhile (fun c => ¬ c = '/')
  let revSuf := revBase.takeWhile (fun c => ¬ c = '.')
  match revBase.dropWhile (fun c => ¬ c = '.') with
  | [] => []
  | _ :: pre => if pre.any (fun c => ¬ c = '.') then '.' :: revSuf.reverse else []

def EXT_WHITELIST : List String := [".png", ".jpg", ".jpeg", ".webp", ".gif", ".svg"]

/-- `_guess_ext_from_url`: keep a whitelisted extension (lower-cased, with
the leading dots removed by `lstrip(".")`), else default to `"png"`. -/
def guess_ext_from_url (u : String) : String :=
  let ext := pyLower ⟨splitextExt (urlPathChars u.data)⟩
  if ext ∈ EXT_WHITELIST then ⟨ext.data.dropWhile (fun c => c = '.')⟩ else "png"

/-! ### The DOM model -/

/-- A DOM forest in first-child / next-sibling form.  `nil` is the empty
forest; a `text` or `elem` node carries the rest of its sibling chain in
`next`.  The parsed page (`BeautifulSoup(html)`) is modelled as
`elem "[document]" [] children nil`, matching bs4's `[document]` pseudo-tag. -/
inductive Dom where
  | nil : Dom
  | text (s : String) (next : Dom) : Dom
  | elem (tag : String) (attrs : Attrs) (child : Dom) (next : Dom) : Dom
deriving Repr, DecidableEq

namespace Dom

/-- Concatenation of two sibling chains. -/
def appendF : Dom → Dom → Dom
  | nil, e => e
  | text s nx, e => text s (appendF nx e)
  | elem t a c nx, e => elem t a c (appendF nx e)

/-- Replace a node's `next` pointer (used to splice a detached node into a
new sibling chain). -/
def withNext : Dom → Dom → Dom
  | nil, e => e
  | text s _, e => text s e
  | elem t a c _, e => elem t a c e

end Dom

/-! ### `clean_article` (app.py lines 133-161) -/

def REMOVED_TAGS : List String := ["script", "style", "svg", "noscript"]

def ALLOWED_TAGS : List String :=
  ["p", "h1", "h2", "h3", "h4", "h5", "h6",
   "ul", "ol", "li", "img", "strong", "em", "b", "i", "a",
   "table", "thead", "tbody", "tr", "th", "td", "figure"]

/-- Attribute rewriting for a surviving tag: `img` keeps only `alt`
(stripped; blank/absent becomes `"Image"` — the `src` attribute is *not*
kept, `tag.attrs = {"alt": alt}` discards it); `a` keeps a normalized
`href` (falling back to `"#"`) plus `rel`/`target`; everything else,
`figure` included, keeps nothing. -/
def clean_attrs (t : String) (a : Attrs) : Attrs :=
  if t = "img" then
    let alt1 := pyStrip ((pyGet a "alt").getD "")
    [("alt", if alt1 = "" then "Image" else alt1)]
  else if t = "a" then
    [("href", (normalize_url (pyGet a "href")).getD "#"),
     ("rel", "noopener"), ("target", "_blank")]
  else []

/-- The body of `clean_article` on a forest of descendants:
`script`/`style`/`svg`/`noscript` subtrees are decomposed, tags outside the
allow-list are unwrapped (replaced by their cleaned children), surviving
tags get their attributes rewritten by `clean_attrs`. -/
def clean_forest : Dom → Dom
  | .nil => .nil
  | .text s nx => .text s (clean_forest nx)
  | .elem t a c nx =>
    if t ∈ REMOVED_TAGS then clean_forest nx
    else if t ∈ ALLOWED_TAGS then .elem t (clean_attrs t a) (clean_forest c) (clean_forest nx)
    else Dom.appendF (clean_forest c) (clean_forest nx)

/-- `clean_article`: both of its passes (`article([...])` decomposition and
the `find_all(True)` rewrite) operate on the descendants of the root only;
the root's own tag and attributes are untouched. -/
def clean_article : Dom → Dom
  | .elem t a c nx => .elem t a (clean_forest c) nx
  | d => d

/-! ### `apply_placeholders` (app.py lines 166-261) -/

/-- The mutable state of `apply_placeholders`: `image_url_map`
(filename → URL, insertion-ordered), `name_for_url` (URL → filename),
the ordered `images_list` / `image_names`, and `slot_counter`. -/
structure PSt where
  map : Attrs
  nameFor : Attrs
  images : List String
  names : List String
  slot : Nat
deriving Repr, DecidableEq

def PSt.empty : PSt := ⟨[], [], [], [], 1⟩

/-- `new_filename_for`: `image{len(image_url_map)+1}.{ext}`. -/
def new_filename_for (st : PSt) (url : String) : String :=
  "image" ++ Nat.repr (st.map.length + 1) ++ "." ++ guess_ext_from_url url

/-- The guard that skips the freshly inserted banner placeholder:
`existing_src and existing_src.startswith("images/image") and "Banner" in (img.get("alt") or "")`. -/
def skipBannerB (a : Attrs) : Bool :=
  match pyGet a "src" with
  | some es =>
    ¬ es = "" && pyStartsWith "images/image" es &&
      pyContains "Banner" ((pyGet a "alt").getD "")
  | none => false

/-- Python truthiness of `img.get("alt")` (absent or empty → falsy). -/
def altFalsyB (a : Attrs) : Bool :=
  match pyGet a "alt" with
  | some v => v = ""
  | none => true

/-- `img["src"] = f"images/{fname}"` followed by
`if not img.get("alt"): img["alt"] = "Image"`. -/
def imgRewrite (a : Attrs) (fname : String) : Attrs :=
  let a1 := pySet a "src" ("images/" ++ fname)
  if altFalsyB a1 then pySet a1 "alt" "Image" else a1

/-- The `for img in soup.find_all("img")` loop over a sibling forest,
processed in document order.  `pt`/`pa` are the tag and current attribute
dictionary of the forest's parent element (the loop reads and mutates
`img.parent` when it is a `figure`).  Images produced by the HTML parser
are childless, and the loop-body never looks inside an `img`, so the
`child` forest of an `img` node is carried over unprocessed.  Returns the
parent's updated attributes, the final state and the rewritten forest. -/
def walkImgs (pt : String) (pa : Attrs) (st : PSt) : Dom → Attrs × PSt × Dom
  | .nil => (pa, st, .nil)
  | .text s nx =>
    let r := walkImgs pt pa st nx
    (r.1, r.2.1, .text s r.2.2)
  | .elem t a c nx =>
    if t = "img" then
      if skipBannerB a then
        -- freshly inserted banner placeholder: left untouched
        let r := walkImgs pt pa st nx
        (r.1, r.2.1, .elem t a c r.2.2)
      else
        match get_img_src a with
        | none =>
          -- no valid absolute URL: img.decompose()
          walkImgs pt pa st nx
        | some url =>
          match pyGet st.nameFor url with
          | some fname =>
            -- duplicate URL: reuse placeholder, no new slot; drop the
            -- parent figure's slot marker if it carries one
            let a2 := imgRewrite a fname
            let pa' := if pt = "figure" then pyDel pa "data-img-slot" else pa
            let r := walkImgs pt pa' st nx
            (r.1, r.2.1, .elem "img" a2 c r.2.2)
          | none =>
            -- first occurrence: allocate filename and slot
            let fname := new_filename_for st url
            let st1 : PSt :=
              { map := pySet st.map fname url
                nameFor := pySet st.nameFor url fname
                images := st.images ++ [url]
                names := st.names ++ [fname]
                slot := st.slot + 1 }
            let a2 := imgRewrite a fname
            if pt = "figure" then
              let pa' := pySet pa "data-img-slot" (Nat.repr st.slot)
              let r := walkImgs pt pa' st1 nx
              (r.1, r.2.1, .elem "img" a2 c r.2.2)
            else
              let r := walkImgs pt pa st1 nx
              (r.1, r.2.1,
               .elem "figure" [("data-img-slot", Nat.repr st.slot)]
                 (.elem "img" a2 c .nil) r.2.2)
    else
      let rc := walkImgs t a st c
      let rn := walkImgs pt pa rc.2.1 nx
      (rn.1, rn.2.1, .elem t rc.1 rc.2.2 rn.2.2)

/-- The banner block
`<p><figure data-img-slot="1"><img src="images/{fname}" alt="Banner"/></figure></p>`. -/
def bannerBlock (fname : String) : Dom :=
  .elem "p" []
    (.elem "figure" [("data-img-slot", "1")]
      (.elem "img" [("src", "images/" ++ fname), ("alt", "Banner")] .nil .nil) .nil) .nil

/-- `apply_placeholders(article, banner_url)`.  Returns the rewritten tree,
`image_url_map`, `images_list` and `image_names`.  A non-element article is
unreachable from the pipeline and is returned unchanged. -/
def apply_placeholders (article : Dom) (banner_url : Option String) :
    Dom × Attrs × List String × List String :=
  match article with
  | .elem t a c nx =>
    let seeded : PSt × Dom :=
      match banner_url with
      | some b0 =>
        if b0 = "" then (PSt.empty, c)
        else
          match normalize_url (some b0) with
          | some b =>
            let fname := new_filename_for PSt.empty b
            (⟨[(fname, b)], [(b, fname)], [b], [fname], 2⟩,
             Dom.withNext (bannerBlock fname) c)
          | none => (PSt.empty, c)
      | none => (PSt.empty, c)
    let r := walkImgs t a seeded.1 seeded.2
    (.elem t r.1 r.2.2 nx, r.2.1.map, r.2.1.images, r.2.1.names)
  | d => (d, [], [], [])

/-! ### Regex matchers used by `extract_images` / `find_banner_url` -/

/-- Case-insensitive literal match (`re.IGNORECASE` over a lowercase
literal pattern). -/
def isPrefixCI : List Char → List Char → Bool
  | [], _ => true
  | _ :: _, [] => false
  | a :: as, b :: bs => a.toLower = b.toLower && isPrefixCI as bs

/-- `(.*?)\)` after an opening parenthesis: the capture runs to the first
`)` and `.` does not match a newline; `none` when no `)` occurs before a
newline or the end of input. -/
def captureToParen : List Char → Option (List Char)
  | [] => none
  | c :: rest =>
    if c = ')' then some []
    else if c = '\n' then none
    else
      match captureToParen rest with
      | some cap => some (c :: cap)
      | none => none

/-- One attempted match of `background-image\s*:\s*url\(` at the head of
the input; returns the characters following `url(` on success. -/
def bgOpenHere (l : List Char) : Option (List Char) :=
  if isPrefixCI "background-image".data l then
    let l1 := (l.drop 16).dropWhile wsB
    match l1 with
    | ':' :: l2 =>
      let l3 := l2.dropWhile wsB
      if isPrefixCI "url(".data l3 then some (l3.drop 4) else none
    | _ => none
  else none

/-- `re.search(r"background-image\s*:\s*url\(", style)`. -/
def searchBgOpen : List Char → Bool
  | [] => (bgOpenHere []).isSome
  | c :: rest => (bgOpenHere (c :: rest)).isSome || searchBgOpen rest

/-- `re.search(r"background-image\s*:\s*url\((.*?)\)", style)`: first
position where the full pattern (closing parenthesis included) matches. -/
def searchBg : List Char → Option String
  | [] => none
  | c :: rest =>
    match bgOpenHere (c :: rest) with
    | some after =>
      match captureToParen after with
      | some cap => some ⟨cap⟩
      | none => searchBg rest
    | none => searchBg rest

/-- `re.findall(r"url\((.*?)\)", style)`: all non-overlapping captures,
scanning left to right. -/
def findAllUrl : List Char → List String
  | [] => []
  | c :: rest =>
    if isPrefixL "url(".data (c :: rest) then
      match captureToParen (rest.drop 3) with
      | some cap => ⟨cap⟩ :: findAllUrl (rest.drop (cap.length + 4))
      | none => findAllUrl rest
    else findAllUrl rest
  termination_by l => l.length
  decreasing_by
    · simp only [List.length_drop, List.length_cons]
      omega
    · simp
    · simp

/-! ### `extract_images` (app.py lines 62-89) -/

/-- All `img` elements of a forest, in document (pre)order, as attribute
dictionaries. -/
def imgAttrsList : Dom → List Attrs
  | .nil => []
  | .text _ nx => imgAttrsList nx
  | .elem t a c nx =>
    (if t = "img" then [a] else []) ++ imgAttrsList c ++ imgAttrsList nx

/-- All elements with a given tag, as attribute dictionaries, preorder. -/
def tagAttrsList (tg : String) : Dom → List Attrs
  | .nil => []
  | .text _ nx => tagAttrsList tg nx
  | .elem t a c nx =>
    (if t = tg then [a] else []) ++ tagAttrsList tg c ++ tagAttrsList tg nx

/-- All attribute dictionaries that carry a `style` attribute, preorder
(`find_all(style=True)`). -/
def styledAttrsList : Dom → List Attrs
  | .nil => []
  | .text _ nx => styledAttrsList nx
  | .elem _ a c nx =>
    (if (pyGet a "style").isSome then [a] else []) ++ styledAttrsList c ++ styledAttrsList nx

/-- The `<source srcset>` URL of one `source` element:
`srcset.split(",")[0].split()[0].strip()`, normalized. -/
def sourceSrcsetUrl (a : Attrs) : Option String :=
  match attrTruthy a "srcset" with
  | some ss =>
    match firstSrcsetToken ss with
    | some tok => normalize_url (some (pyStrip tok))
    | none => none
  | none => none

/-- The sequence of URLs added to `extract_images`'s `image_urls` set, in
insertion order: the `img` pass, then the `source` pass, then the
`background-image` style pass.  `container` is the forest of the scanned
element's descendants (bs4 `find_all` does not include the element
itself).  The source function returns `list(image_urls)` — the *set* of
these strings in unspecified (hash) order, so only membership, not order,
is determined by the program. -/
def extract_images_adds (container : Dom) : List String :=
  ((imgAttrsList container).filterMap get_img_src) ++
  ((tagAttrsList "source" container).filterMap sourceSrcsetUrl) ++
  ((styledAttrsList container).flatMap fun a =>
    match pyGet a "style" with
    | some st => (findAllUrl st.data).filterMap
        (fun m => normalize_url (some (pyStripQuoteSpace m)))
    | none => [])

/-! ### `find_banner_url` (app.py lines 94-128) -/

/-- Whitespace-separated class tokens of a `class` attribute value. -/
def classTokens (s : String) : List String :=
  ((s.data.splitOnP wsB).filter (fun l => ¬ l.isEmpty)).map (fun l => ⟨l⟩)

/-- CSS class-selector test: the element's `class` attribute contains the
token `cls`. -/
def hasClass (a : Attrs) (cls : String) : Bool :=
  match pyGet a "class" with
  | some v => cls ∈ classTokens v
  | none => false

/-- `soup.select_one(".wrapper-banner-image")`: first element in document
order whose classes contain the token, returned as a detached single node. -/
def selectOneClass (cls : String) : Dom → Option Dom
  | .nil => none
  | .text _ nx => selectOneClass cls nx
  | .elem t a c nx =>
    if hasClass a cls then some (.elem t a c .nil)
    else
      match selectOneClass cls c with
      | some d => some d
      | none => selectOneClass cls nx

/-- First element (preorder) satisfying a predicate on tag and attributes,
returned as a detached single node (bs4 `soup.find(...)`). -/
def findElemP (p : String → Attrs → Bool) : Dom → Option Dom
  | .nil => none
  | .text _ nx => findElemP p nx
  | .elem t a c nx =>
    if p t a then some (.elem t a c .nil)
    else
      match findElemP p c with
      | some d => some d
      | none => findElemP p nx

/-- The banner-from-wrapper-style step: the wrapper's `style` attribute
(if truthy) searched for `background-image: url(…)`, the capture stripped
of quotes/spaces and normalized. -/
def wrapStyleUrl (a : Attrs) : Option String :=
  match pyGet a "style" with
  | some stl =>
    if stl = "" then none
    else
      match searchBg stl.data with
      | some cap => normalize_url (some (pyStripQuoteSpace cap))
      | none => none
  | none => none

/-- The banner-from-wrapper-inner-img step: `wrap.find("img")` then
`_get_img_src`. -/
def wrapImgUrl (c : Dom) : Option String :=
  match findElemP (fun t _ => t = "img") c with
  | some (.elem _ a _ _) => get_img_src a
  | _ => none

/-- First branch of `find_banner_url`: the `.wrapper-banner-image` element,
its style first, its first descendant `img` second. -/
def wrapperBranch (doc : Dom) : Option String :=
  match selectOneClass "wrapper-banner-image" doc with
  | some (.elem _ a c _) =>
    match wrapStyleUrl a with
    | some u => some u
    | none => wrapImgUrl c
  | _ => none

/-- Second branch: any element whose `style` attribute matches
`background-image\s*:\s*url\(`, its full capture normalized. -/
def anyBgBranch (doc : Dom) : Option String :=
  match findElemP (fun _ a =>
      match pyGet a "style" with
      | some stl => searchBgOpen stl.data
      | none => false) doc with
  | some (.elem _ a _ _) =>
    (match searchBg ((pyGet a "style").getD "").data with
     | some cap => normalize_url (some (pyStripQuoteSpace cap))
     | none => none)
  | _ => none

/-- Third branch: `soup.find("meta", property="og:image")`, its truthy
`content` stripped and normalized. -/
def ogBranch (doc : Dom) : Option String :=
  match findElemP (fun t a => t = "meta" && pyGet a "property" = some "og:image") doc with
  | some (.elem _ a _ _) =>
    (match pyGet a "content" with
     | some ct => if ct = "" then none else normalize_url (some (pyStrip ct))
     | none => none)
  | _ => none

/-- `find_banner_url(soup)`, translated clause by clause: wrapper style,
wrapper inner `img`, any `background-image` style, `og:image`, `None` —
each stage falling through to the next when it produces no normalized URL.
`doc` is the forest of the page's nodes (the `[document]` root's children,
which is what every `soup.find`/`select_one` call here searches). -/
def find_banner_url (doc : Dom) : Option String :=
  match selectOneClass "wrapper-banner-image" doc with
  | some (.elem _ a c _) =>
    (match wrapStyleUrl a with
     | some u => some u
     | none =>
       match wrapImgUrl c with
       | some u => some u
       | none =>
         match anyBgBranch doc with
         | some u => some u
         | none => ogBranch doc)
  | _ =>
    match anyBgBranch doc with
    | some u => some u
    | none => ogBranch doc

/-! ### `extract_blog_content` (app.py lines 266-294)

`article = soup.find(...)` returns a *reference* into the parsed tree and
`article.insert(0, h1)` moves the found `h1` node (possibly from inside
the article itself).  To model node identity, preorder searches here can
also return the *path* of the found node (the list of sibling indices
descending from the document's child forest), so that "the h1 lies inside
the article" is the path-prefix test and in-place removal is removal at a
path. -/

/-- Preorder search for the first element satisfying `p`, returning its
path; `i` is the index of the head of the current forest among its
siblings. -/
def findPathPFrom (p : String → Attrs → Bool) (i : Nat) : Dom → Option (List Nat)
  | .nil => none
  | .text _ nx => findPathPFrom p (i + 1) nx
  | .elem t a c nx =>
    if p t a then some [i]
    else
      match findPathPFrom p 0 c with
      | some q => some (i :: q)
      | none => findPathPFrom p (i + 1) nx

def findPathTag (t : String) (f : Dom) : Option (List Nat) :=
  findPathPFrom (fun tg _ => tg = t) 0 f

/-- Does the forest contain an element satisfying the predicate? -/
def existsElemP (p : String → Attrs → Bool) : Dom → Bool
  | .nil => false
  | .text _ nx => existsElemP p nx
  | .elem tg a c nx => p tg a || existsElemP p c || existsElemP p nx

/-- Does the forest contain an element with the given tag? -/
def hasTag (t : String) (f : Dom) : Bool :=
  existsElemP (fun tg _ => tg = t) f

/-- Does the forest contain a `div` whose classes include `cls`
(`soup.find("div", class_=cls)` succeeds)? -/
def hasDivClass (cls : String) (f : Dom) : Bool :=
  existsElemP (fun tg a => tg = "div" && hasClass a cls) f

/-- The node at a path, detached (its own `next` dropped). -/
def getAtPath : Dom → List Nat → Option Dom
  | _, [] => none
  | .nil, _ => none
  | .text s _, 0 :: rest =>
    (match rest with
     | [] => some (.text s .nil)
     | _ => none)
  | .text _ nx, (i + 1) :: rest => getAtPath nx (i :: rest)
  | .elem t a c _, 0 :: rest =>
    (match rest with
     | [] => some (.elem t a c .nil)
     | _ => getAtPath c rest)
  | .elem _ _ _ nx, (i + 1) :: rest => getAtPath nx (i :: rest)

/-- Remove the node (and its subtree) at a path; identity on invalid paths. -/
def removeAtPath : Dom → List Nat → Dom
  | d, [] => d
  | .nil, _ => .nil
  | .text s nx, 0 :: rest =>
    (match rest with
     | [] => nx
     | _ => .text s nx)
  | .text s nx, (i + 1) :: rest => .text s (removeAtPath nx (i :: rest))
  | .elem t a c nx, 0 :: rest =>
    (match rest with
     | [] => nx
     | _ => .elem t a (removeAtPath c rest) nx)
  | .elem t a c nx, (i + 1) :: rest => .elem t a c (removeAtPath nx (i :: rest))

/-- `p` is a strict prefix of `q`: the node at `q` lies strictly inside the
node at `p`. -/
def isStrictPrefixB (p q : List Nat) : Bool :=
  p.isPrefixOf q && p.length < q.length

def CONTENT_CLASSES : List String :=
  ["blog-content", "post-content", "entry-content", "content", "article-body"]

/-- The `for cls in [...]` loop: the first class (in list order) for which
`soup.find("div", class_=cls)` succeeds. -/
def firstClassDivPath : List String → Dom → Option (List Nat)
  | [], _ => none
  | cls :: rest, dc =>
    match findPathPFrom (fun tg a => tg = "div" && hasClass a cls) 0 dc with
    | some p => some p
    | none => firstClassDivPath rest dc

/-- Root location over the document's child forest: an `article` element,
else the class-designated `div` loop, else `body`; `none` means the whole
document is the root (`article = soup.body or soup` with no body found). -/
def findRootPathIn (dc : Dom) : Option (List Nat) :=
  match findPathTag "article" dc with
  | some p => some p
  | none =>
    match firstClassDivPath CONTENT_CLASSES dc with
    | some p => some p
    | none => findPathTag "body" dc

/-- Root location and the `article.insert(0, h1)` move: the first `h1` of
the page (if any) is detached from its position and prepended to the
root's children.  When the `h1` lies inside the chosen root it is removed
from its old place inside the root first. -/
def articleStage (doc : Dom) : Dom :=
  match doc with
  | .elem dt da dc _ =>
    let rootPath := findRootPathIn dc
    let article :=
      match rootPath with
      | some p => (getAtPath dc p).getD (.elem dt da dc .nil)
      | none => .elem dt da dc .nil
    (match findPathTag "h1" dc with
     | none => article
     | some q =>
       let h1n := (getAtPath dc q).getD .nil
       match rootPath with
       | none =>
         -- the whole document is the root: the h1 always lies inside it
         (match article with
          | .elem t a c nx => .elem t a (Dom.withNext h1n (removeAtPath c q)) nx
          | d => d)
       | some p =>
         if isStrictPrefixB p q then
           (match article with
            | .elem t a c nx =>
              .elem t a (Dom.withNext h1n (removeAtPath c (q.drop p.length))) nx
            | d => d)
         else
           (match article with
            | .elem t a c nx => .elem t a (Dom.withNext h1n c) nx
            | d => d))
  | d => d

/-- The tree handed to `apply_placeholders`: root location, the `h1` move
and `clean_article`, in source order. -/
def preAssignTree (doc : Dom) : Dom :=
  clean_article (articleStage doc)

/-- `extract_blog_content(html)` on the parsed document
(`doc = elem "[document]" [] children nil`): banner resolution happens on
the original page, before the `h1` move and cleaning. -/
def extract_blog_content (doc : Dom) : Dom × Attrs × List String × List String :=
  match doc with
  | .elem _ _ dc _ =>
    apply_placeholders (preAssignTree doc) (find_banner_url dc)
  | d => (d, [], [], [])

/-! ### Proof-support definitions -/

/-- An `href` value that `clean_article` would leave unchanged on a second
pass (`_normalize_url(href) or "#"` is a fixpoint). -/
def hrefFixed (h : String) : Bool :=
  (normalize_url (some h)).getD "#" = h

/-- The attribute shape `clean_article` leaves behind on a surviving tag,
closed under re-running the pass. -/
def attrsClean (t : String) (a : Attrs) : Bool :=
  if t = "img" then
    match a with
    | [(k, v)] => k = "alt" && pyStrip v = v && ¬ v = ""
    | _ => false
  else if t = "a" then
    match a with
    | [(k1, h), (k2, r), (k3, tg)] =>
      k1 = "href" && hrefFixed h && k2 = "rel" && r = "noopener" &&
        k3 = "target" && tg = "_blank"
    | _ => false
  else a.isEmpty

/-- A fully sanitized forest: every element's tag is allow-listed and its
attributes are in the shape `clean_attrs` produces. -/
def cleanedB : Dom → Bool
  | .nil => true
  | .text _ nx => cleanedB nx
  | .elem t a c nx =>
    decide (t ∈ ALLOWED_TAGS) && attrsClean t a && cleanedB c && cleanedB nx

/-- A forest with every `img` element (recursively) removed — the shape
`apply_placeholders`'s loop leaves a sanitized forest in, since sanitized
images have no `src`/`data-*`/`srcset` left and are all decomposed. -/
def dropImgs : Dom → Dom
  | .nil => .nil
  | .text s nx => .text s (dropImgs nx)
  | .elem t a c nx =>
    if t = "img" then dropImgs nx else .elem t a (dropImgs c) (dropImgs nx)

/-- Decimal digit list of a natural number (most significant first),
the reference shape of `Nat.repr`'s output. -/
def myDigits (n : Nat) : List Char :=
  if n < 10 then [Nat.digitChar n]
  else myDigits (n / 10) ++ [Nat.digitChar (n % 10)]
  decreasing_by exact Nat.div_lt_self (by omega) (by omega)

/-- Reads a decimal digit list back (inverse of `myDigits`). -/
def parseDigits (l : List Char) : Nat :=
  l.foldl (fun a c => 10 * a + (c.toNat - 48)) 0

/-- The shape of every generated placeholder filename:
`image{n}.{ext}` (`new_filename_for`). -/
def placeholderName (n : Nat) (e : String) : String :=
  "image" ++ Nat.repr n ++ "." ++ e

/-- The ordinal encoded in a placeholder filename: the digits between the
literal `image` prefix and the extension dot. -/
def imgIndexOf (s : String) : Nat :=
  parseDigits ((s.data.drop 5).takeWhile Char.isDigit)

/-- The extensions `_guess_ext_from_url` can return. -/
def PLACEHOLDER_EXTS : List String := ["png", "jpg", "jpeg", "webp", "gif", "svg"]

/-- The invariant `apply_placeholders`'s loop maintains on its state:
`image_url_map` is exactly `image_names` zipped with `images_list`, the two
lists run in parallel, and the i-th filename encodes ordinal `i + 1`. -/
def stInv (st : PSt) : Prop :=
  st.map = st.names.zip st.images ∧
  st.names.length = st.images.length ∧
  ∀ i (h : i < st.names.length), imgIndexOf (st.names.get ⟨i, h⟩) = i + 1

/-- The state transition performed by `apply_placeholders`'s loop for one
resolved image URL: reuse the existing filename, or allocate the next
ordinal (exactly the duplicate/new branches of the loop body). -/
def stepSt (st : PSt) (url : String) : PSt :=
  match pyGet st.nameFor url with
  | some _ => st
  | none =>
    ⟨pySet st.map (new_filename_for st url) url,
     pySet st.nameFor url (new_filename_for st url),
     st.images ++ [url], st.names ++ [new_filename_for st url], st.slot + 1⟩

/-- The sequence of `src` values the loop writes into the surviving body
images, given the starting state and their resolved URLs in document
order: each gets `images/` plus its URL's filename — the one already in
`name_for_url`, else the freshly allocated one. -/
def srcsOf (st : PSt) : List String → List (Option String)
  | [] => []
  | u :: rest =>
    some ("images/" ++ (match pyGet st.nameFor u with
                        | some f => f
                        | none => new_filename_for st u)) :: srcsOf (stepSt st u) rest

/-- Every `img` element of the forest is childless, as the HTML parser
guarantees for the void `img` tag (the loop body never looks inside an
`img`). -/
def imgsChildless : Dom → Bool
  | .nil => true
  | .text _ nx => imgsChildless nx
  | .elem t _ c nx =>
    (if t = "img" then c = Dom.nil else imgsChildless c) && imgsChildless nx

/-- Some element of the page carries a `style` attribute matching the
`background-image\s*:\s*url\(` search pattern (the condition under which
`find_banner_url`'s second stage finds a node). -/
def hasBgStyle (doc : Dom) : Bool :=
  existsElemP (fun _ a =>
    match pyGet a "style" with
    | some stl => searchBgOpen stl.data
    | none => false) doc

/-! ### Concrete example documents used by the claim theorems -/

/-- A bare `img` element with a `src` attribute. -/
def imgSrc (u : String) (nx : Dom) : Dom := .elem "img" [("src", u)] .nil nx

/-- Claim C2's scenario: a body whose images reference `[A, B, A, C]`. -/
def exBodyABAC : Dom :=
  .elem "div" []
    (imgSrc "https://cdn.example/a.png"
      (imgSrc "https://cdn.example/b.png"
        (imgSrc "https://cdn.example/a.png"
          (imgSrc "https://cdn.example/c.png" .nil)))) .nil

/-- The expected rewritten body for C2. -/
def exBodyABACExpected : Dom :=
  .elem "div" []
    (.elem "figure" [("data-img-slot", "1")]
      (.elem "img" [("src", "images/image1.png"), ("alt", "Image")] .nil .nil)
      (.elem "figure" [("data-img-slot", "2")]
        (.elem "img" [("src", "images/image2.png"), ("alt", "Image")] .nil .nil)
        (.elem "img" [("src", "images/image1.png"), ("alt", "Image")] .nil
          (.elem "figure" [("data-img-slot", "3")]
            (.elem "img" [("src", "images/image3.png"), ("alt", "Image")] .nil .nil)
            .nil)))) .nil

/-- C1's article: an `img` carrying both `src` and `alt`. -/
def exArticleImg : Dom :=
  .elem "article" []
    (.elem "img" [("src", "https://img.example/pic.png"), ("alt", "Hi")] .nil .nil) .nil

/-- C5's counterexample page: a `.wrapper-banner-image` element whose style
declares `background-image: url(/rel.png)` (a relative URL), alongside an
`og:image` meta. -/
def exDocWrapperRel : Dom :=
  .elem "div" [("class", "wrapper-banner-image"), ("style", "background-image:url(/rel.png)")] .nil
    (.elem "meta" [("property", "og:image"), ("content", "https://y.example/y.png")] .nil .nil)

/-- C8's container descendants: two images with distinct absolute URLs. -/
def exForestTwoImgs : Dom :=
  imgSrc "https://a.example/1.png" (imgSrc "https://b.example/2.png" .nil)

/-- C10's counterexample document: `<p>hi</p>` parsed with `html.parser`
(no `article`, no designated class, no `body`). -/
def exDocNoRoot : Dom :=
  .elem "[document]" [] (.elem "p" [] (.text "hi" .nil) .nil) .nil

/-- C6's witness scenario: the attributes of a body `img` referencing the
banner's URL. -/
def exDupAttrs : Attrs := [("src", "https://cdn.example/banner.png")]

/-- C6's witness scenario: the assigner state right after the banner
(ordinal 1) was seeded — the banner URL already has a filename. -/
def exDupSt : PSt :=
  ⟨[("image1.png", "https://cdn.example/banner.png")],
   [("https://cdn.example/banner.png", "image1.png")],
   ["https://cdn.example/banner.png"], ["image1.png"], 2⟩

/-- The page content of C3's counterexample document: an article whose
body holds an author headshot `img` with `alt="Jane Smith"`. -/
def exDocJaneChildren : Dom :=
  .elem "article" []
    (.elem "p" []
      (.elem "img" [("src", "https://x.example/jane.png"), ("alt", "Jane Smith")] .nil .nil)
      .nil) .nil

/-- C3's counterexample document. -/
def exDocJane : Dom :=
  .elem "[document]" [] exDocJaneChildren .nil

/-! ## Theorems -/

/-! ### Stripping and prefix lemmas -/

theorem dropWhile_cons_head {α} (p : α → Bool) (l : List α) (a : α) (t : List α)
    (h : l.dropWhile p = a :: t) : p a = false := by
  induction l with
  | nil => simp [List.dropWhile] at h
  | cons b l ih =>
    by_cases hb : p b
    · simp [List.dropWhile, hb] at h
      exact ih h
    · simp [List.dropWhile, hb] at h
      rw [← h.1]
      simpa using hb

theorem dropWhile_idem {α} (p : α → Bool) (l : List α) :
    (l.dropWhile p).dropWhile p = l.dropWhile p := by
  cases h : l.dropWhile p with
  | nil => simp
  | cons a t =>
    have ha := dropWhile_cons_head p l a t h
    simp [List.dropWhile, ha]

theorem dropWhile_eq_self_of_head {α} (p : α → Bool) (a : α) (t : List α)
    (h : p a = false) : (a :: t).dropWhile p = a :: t := by
  simp [List.dropWhile, h]

theorem stripP_prefix (p : Char → Bool) (l : List Char) :
    stripP p l <+: l.dropWhile p := by
  have h1 : (l.dropWhile p).reverse.dropWhile p <:+ (l.dropWhile p).reverse :=
    List.dropWhile_suffix p
  have h2 := List.reverse_prefix.mpr h1
  simpa [stripP] using h2

theorem stripP_dropWhile (p : Char → Bool) (l : List Char) :
    (stripP p l).dropWhile p = stripP p l := by
  cases h : stripP p l with
  | nil => simp
  | cons a t =>
    have hp : stripP p l <+: l.dropWhile p := stripP_prefix p l
    rw [h] at hp
    obtain ⟨r, hr⟩ := hp
    have hd : l.dropWhile p = a :: (t ++ r) := by rw [← hr]; simp
    have ha := dropWhile_cons_head p l a (t ++ r) hd
    simp [List.dropWhile, ha]

theorem stripP_reverse_dropWhile (p : Char → Bool) (l : List Char) :
    (stripP p l).reverse.dropWhile p = (stripP p l).reverse := by
  have : (stripP p l).reverse = (l.dropWhile p).reverse.dropWhile p := by
    simp [stripP]
  rw [this]
  exact dropWhile_idem p _

theorem stripP_idem (p : Char → Bool) (l : List Char) :
    stripP p (stripP p l) = stripP p l := by
  have h : stripP p (stripP p l)
      = (((stripP p l).dropWhile p).reverse.dropWhile p).reverse := rfl
  rw [h, stripP_dropWhile, stripP_reverse_dropWhile, List.reverse_reverse]

theorem pyStrip_idem (s : String) : pyStrip (pyStrip s) = pyStrip s := by
  show String.mk (stripP wsB (stripP wsB s.data)) = String.mk (stripP wsB s.data)
  exact congrArg String.mk (stripP_idem wsB s.data)

theorem isPrefixL_cons_elim (a : Char) (t l : List Char)
    (h : isPrefixL (a :: t) l = true) : ∃ r, l = a :: r := by
  cases l with
  | nil => simp [isPrefixL] at h
  | cons b bs =>
    simp [isPrefixL] at h
    exact ⟨bs, by rw [h.1]⟩

/-! ### `_normalize_url` is a partial idempotent -/

theorem normalize_url_idem {u v : String} (h : normalize_url (some u) = some v) :
    normalize_url (some v) = some v := by
  by_cases h0 : u = ""
  · simp [normalize_url, h0] at h
  by_cases h1 : pyStrip u = ""
  · simp [normalize_url, h0, h1] at h
  by_cases h2 : pyStartsWith "//" (pyStrip u) = true
  · -- protocol-relative: v = "https:" ++ pyStrip u
    simp [normalize_url, h0, h1, h2] at h
    obtain ⟨hcond, hv⟩ := h
    -- the stripped character list and its shape
    have hsd : (pyStrip u).data = stripP wsB u.data := rfl
    have hld : "https:".data = ['h', 't', 't', 'p', 's', ':'] := rfl
    obtain ⟨r, hr⟩ := isPrefixL_cons_elim '/' ['/'] (pyStrip u).data h2
    have hvd : v.data = 'h' :: (['t', 't', 'p', 's', ':'] ++ (pyStrip u).data) := by
      rw [← hv, String.data_append, hld]
      rfl
    -- v is non-empty
    have f1 : ¬ v = "" := by
      intro he
      have : v.data = [] := by rw [he]
      rw [hvd] at this
      cases this
    -- v is already stripped
    have f2 : pyStrip v = v := by
      apply String.ext
      show stripP wsB v.data = v.data
      have hdrop : v.data.dropWhile wsB = v.data := by
        rw [hvd]
        exact dropWhile_eq_self_of_head wsB _ _ (by decide)
      have hrev : v.data.reverse.dropWhile wsB = v.data.reverse := by
        have hfix : (pyStrip u).data.reverse.dropWhile wsB = (pyStrip u).data.reverse := by
          rw [hsd]
          exact stripP_reverse_dropWhile wsB u.data
        have hne : (pyStrip u).data.reverse ≠ [] := by
          rw [hr]; simp
        obtain ⟨b, bs, hbs⟩ := List.exists_cons_of_ne_nil hne
        have hb : wsB b = false := by
          apply dropWhile_cons_head wsB (pyStrip u).data.reverse b bs
          rw [hfix, hbs]
        have hvr : v.data.reverse
            = b :: (bs ++ ('h' :: ['t', 't', 'p', 's', ':']).reverse) := by
          rw [hvd]
          show (('h' :: ['t', 't', 'p', 's', ':']) ++ (pyStrip u).data).reverse = _
          rw [List.reverse_append, hbs]
          simp
        rw [hvr]
        exact dropWhile_eq_self_of_head wsB _ _ hb
      show ((v.data.dropWhile wsB).reverse.dropWhile wsB).reverse = v.data
      rw [hdrop, hrev, List.reverse_reverse]
    -- v does not start with "//"
    have f3 : pyStartsWith "//" v = false := by
      show isPrefixL "//".data v.data = false
      rw [hvd]
      simp [isPrefixL]
    rw [hv] at hcond
    rcases hcond with hc | hc <;> simp [normalize_url, f1, f2, f3, hc]
  · -- already absolute case: v = pyStrip u
    simp [normalize_url, h0, h1, h2] at h
    obtain ⟨hcond, hv⟩ := h
    have f1 : ¬ v = "" := by rw [← hv]; exact h1
    have f2 : pyStrip v = v := by rw [← hv]; exact pyStrip_idem u
    have f3 : pyStartsWith "//" v = false := by
      rw [← hv]
      simpa using h2
    rw [hv] at hcond
    rcases hcond with hc | hc <;> simp [normalize_url, f1, f2, f3, hc]

/-! ### `clean_article` produces sanitized output and is idempotent -/

theorem attrsClean_clean_attrs (t : String) (a : Attrs) :
    attrsClean t (clean_attrs t a) = true := by
  by_cases h1 : t = "img"
  · subst h1
    by_cases h2 : pyStrip ((pyGet a "alt").getD "") = ""
    · simp [clean_attrs, attrsClean, h2]
      decide
    · simp [clean_attrs, attrsClean, h2, pyStrip_idem]
  · by_cases h3 : t = "a"
    · subst h3
      simp [clean_attrs, attrsClean]
      cases hg : pyGet a "href" with
      | none => decide
      | some h0 =>
        cases hn : normalize_url (some h0) with
        | none =>
          simp [hn, hrefFixed]
          decide
        | some v =>
          simp [hn, hrefFixed, normalize_url_idem hn]
    · simp [clean_attrs, attrsClean, h1, h3]

theorem cleanedB_appendF (x y : Dom) :
    cleanedB (Dom.appendF x y) = (cleanedB x && cleanedB y) := by
  induction x with
  | nil => simp [Dom.appendF, cleanedB]
  | text s nx ih => simp [Dom.appendF, cleanedB, ih]
  | elem t a c nx ihc ihn =>
    simp [Dom.appendF, cleanedB, ihn, Bool.and_assoc]

theorem clean_forest_cleaned (d : Dom) : cleanedB (clean_forest d) = true := by
  induction d with
  | nil => rfl
  | text s nx ih => simpa [clean_forest, cleanedB] using ih
  | elem t a c nx ihc ihn =>
    by_cases hr : t ∈ REMOVED_TAGS
    · simpa [clean_forest, hr] using ihn
    · by_cases ha : t ∈ ALLOWED_TAGS
      · simp [clean_forest, hr, ha, cleanedB, ihc, ihn, attrsClean_clean_attrs]
      · simp [clean_forest, hr, ha, cleanedB_appendF, ihc, ihn]

theorem allowed_not_removed (t : String) (h : t ∈ ALLOWED_TAGS) :
    t ∉ REMOVED_TAGS := by
  intro hr
  have : ∀ x ∈ ALLOWED_TAGS, x ∉ REMOVED_TAGS := by decide
  exact this t h hr

theorem clean_attrs_fixed (t : String) (a : Attrs) (h : attrsClean t a = true) :
    clean_attrs t a = a := by
  by_cases h1 : t = "img"
  · subst h1
    match a, h with
    | [(k, v)], h =>
      simp [attrsClean] at h
      obtain ⟨⟨hk, hv⟩, hne⟩ := h
      subst hk
      simp [clean_attrs, pyGet, hv, hne]
  · by_cases h3 : t = "a"
    · subst h3
      match a, h with
      | [(k1, h0), (k2, r), (k3, tg)], h =>
        simp [attrsClean] at h
        obtain ⟨⟨⟨⟨⟨hk1, hfix⟩, hk2⟩, hr⟩, hk3⟩, htg⟩ := h
        subst hk1; subst hk2; subst hk3; subst hr; subst htg
        simp [clean_attrs, pyGet]
        simpa [hrefFixed] using hfix
    · simp [attrsClean, h1, h3] at h
      simp [clean_attrs, h1, h3, h]

theorem clean_forest_fixed (d : Dom) (h : cleanedB d = true) : clean_forest d = d := by
  induction d with
  | nil => rfl
  | text s nx ih =>
    simp [cleanedB] at h
    simp [clean_forest, ih h]
  | elem t a c nx ihc ihn =>
    simp [cleanedB] at h
    obtain ⟨⟨⟨hall, hattr⟩, hc⟩, hn⟩ := h
    simp [clean_forest, allowed_not_removed t hall, hall,
      clean_attrs_fixed t a hattr, ihc hc, ihn hn]

/-- Claim C4: sanitization is idempotent — re-running `clean_article` on
its own output removes no nodes, unwraps no tags and changes no
attributes. -/
theorem clean_article_idempotent (x : Dom) :
    clean_article (clean_article x) = clean_article x := by
  cases x with
  | nil => rfl
  | text s nx => rfl
  | elem t a c nx =>
    simp [clean_article, clean_forest_fixed _ (clean_forest_cleaned c)]

/-- Claim C1 (evaluation of the defect): `clean_article` on an `img`
carrying both `src` and `alt` rewrites its attributes to `alt` alone —
`tag.attrs = {"alt": alt}` discards `src`, contrary to the spec's
"keeps only src/alt". -/
theorem clean_article_drops_img_src :
    clean_article exArticleImg =
      Dom.elem "article" [] (.elem "img" [("alt", "Hi")] .nil .nil) .nil ∧
    pyGet [("alt", "Hi")] "src" = none := by
  constructor
  · rfl
  · rfl

/-! ### Decimal digits of `Nat.repr` and placeholder-filename ordinals -/

theorem toDigitsCore_eq (n : Nat) : ∀ (f : Nat) (acc : List Char), n < f →
    Nat.toDigitsCore 10 f n acc = myDigits n ++ acc := by
  induction n using Nat.strong_induction_on with
  | _ n ih =>
    intro f acc hf
    match f, hf with
    | f + 1, hf =>
      by_cases h10 : n < 10
      · have hd : n / 10 = 0 := Nat.div_eq_of_lt h10
        rw [myDigits]
        simp [Nat.toDigitsCore, hd, h10, Nat.mod_eq_of_lt h10]
      · have hdpos : ¬ n / 10 = 0 := by
          intro hc
          have := Nat.div_eq_of_lt (by omega : n < 10)
          omega
        have hlt : n / 10 < n := Nat.div_lt_self (by omega) (by omega)
        have hstep : Nat.toDigitsCore 10 (f + 1) n acc
            = Nat.toDigitsCore 10 f (n / 10) ((n % 10).digitChar :: acc) := by
          simp [Nat.toDigitsCore, hdpos]
        have hm : myDigits n = myDigits (n / 10) ++ [(n % 10).digitChar] := by
          rw [myDigits]
          simp [h10]
        rw [hstep, ih (n / 10) hlt f _ (by omega), hm]
        simp

theorem repr_data (n : Nat) : (Nat.repr n).data = myDigits n := by
  have h := toDigitsCore_eq n (n + 1) [] (Nat.lt_succ_self n)
  show (Nat.toDigitsCore 10 (n + 1) n []).asString.data = myDigits n
  rw [h]
  simp [List.asString]

theorem digitChar_isDigit (m : Nat) (h : m < 10) : (Nat.digitChar m).isDigit = true := by
  have : ∀ k, k < 10 → (Nat.digitChar k).isDigit = true := by decide
  exact this m h

theorem myDigits_digits (n : Nat) : ∀ c ∈ myDigits n, c.isDigit = true := by
  induction n using Nat.strong_induction_on with
  | _ n ih =>
    by_cases h10 : n < 10
    · rw [myDigits]
      simp [h10]
      exact digitChar_isDigit n h10
    · rw [myDigits]
      simp [h10]
      intro c hc
      rcases hc with hc | hc
      · exact ih (n / 10) (Nat.div_lt_self (by omega) (by omega)) c hc
      · rw [hc]
        exact digitChar_isDigit (n % 10) (Nat.mod_lt n (by omega))

theorem digitChar_toNat (m : Nat) (h : m < 10) : (Nat.digitChar m).toNat - 48 = m := by
  have : ∀ k, k < 10 → (Nat.digitChar k).toNat - 48 = k := by decide
  exact this m h

theorem parse_myDigits (n : Nat) : parseDigits (myDigits n) = n := by
  induction n using Nat.strong_induction_on with
  | _ n ih =>
    by_cases h10 : n < 10
    · rw [myDigits]
      simp [h10, parseDigits, digitChar_toNat n h10]
    · rw [myDigits]
      simp only [h10, if_false]
      have h1 := ih (n / 10) (Nat.div_lt_self (by omega) (by omega))
      simp only [parseDigits, List.foldl_append] at h1 ⊢
      rw [h1]
      simp [digitChar_toNat (n % 10) (Nat.mod_lt n (by omega))]
      omega

theorem takeWhile_append_all (p : Char → Bool) (l₁ l₂ : List Char)
    (h : ∀ x ∈ l₁, p x = true) :
    (l₁ ++ l₂).takeWhile p = l₁ ++ l₂.takeWhile p := by
  induction l₁ with
  | nil => simp
  | cons a t ih =>
    have ha := h a (by simp)
    simp [List.takeWhile, ha]
    exact ih fun x hx => h x (by simp [hx])

theorem imgIndexOf_placeholderName (n : Nat) (e : String) :
    imgIndexOf (placeholderName n e) = n := by
  show parseDigits (((placeholderName n e).data.drop 5).takeWhile Char.isDigit) = n
  have hdata : (placeholderName n e).data
      = "image".data ++ (myDigits n ++ ('.' :: e.data)) := by
    show ("image" ++ Nat.repr n ++ "." ++ e).data = _
    simp [String.data_append, repr_data, List.append_assoc]
  rw [hdata]
  rw [show (5 : Nat) = ("image".data : List Char).length from rfl, List.drop_left]
  rw [takeWhile_append_all Char.isDigit (myDigits n) _ (myDigits_digits n)]
  have hdot : Char.isDigit '.' = false := by decide
  have : ('.' :: e.data).takeWhile Char.isDigit = [] := by
    simp [List.takeWhile_cons, hdot]
  rw [this]
  simp [parse_myDigits n]

/-! ### Attribute-dictionary lemmas -/

theorem pyGet_pySet_self (d : Attrs) (k v : String) :
    pyGet (pySet d k v) k = some v := by
  induction d with
  | nil => simp [pySet, pyGet, List.find?]
  | cons p rest ih =>
    by_cases hp : p.1 = k
    · simp [pySet, hp, pyGet, List.find?]
    · simp [pySet, hp]
      simp [pyGet, List.find?, hp] at ih ⊢
      exact ih

theorem pyGet_pySet_other (d : Attrs) (k v k' : String) (h : ¬ k' = k) :
    pyGet (pySet d k v) k' = pyGet d k' := by
  have hkk : ¬ k = k' := fun hc => h hc.symm
  induction d with
  | nil =>
    simp [pySet, pyGet, List.find?, hkk]
  | cons p rest ih =>
    by_cases hp : p.1 = k
    · have hp' : ¬ p.1 = k' := by rw [hp]; exact hkk
      simp [pySet, hp, pyGet, List.find?, hp', hkk]
    · by_cases hp' : p.1 = k'
      · simp [pySet, hp, pyGet, List.find?, hp', h]
      · simp [pySet, hp, pyGet, List.find?, hp', h]
        simpa [pyGet] using ih

theorem pyGet_pyDel_self (d : Attrs) (k : String) :
    pyGet (pyDel d k) k = none := by
  induction d with
  | nil => simp [pyDel, pyGet, List.find?]
  | cons p rest ih =>
    by_cases hp : p.1 = k
    · simpa [pyDel, hp] using ih
    · simp [pyDel, hp, pyGet, List.find?] at ih ⊢
      exact ih

theorem pySet_append_of_not_mem (d : Attrs) (k v : String)
    (h : ∀ p ∈ d, ¬ p.1 = k) : pySet d k v = d ++ [(k, v)] := by
  induction d with
  | nil => simp [pySet]
  | cons p rest ih =>
    have hp := h p (by simp)
    simp [pySet, hp]
    exact ih fun q hq => h q (by simp [hq])

theorem imgRewrite_src (a : Attrs) (fname : String) :
    pyGet (imgRewrite a fname) "src" = some ("images/" ++ fname) := by
  unfold imgRewrite
  by_cases hf : altFalsyB (pySet a "src" ("images/" ++ fname)) = true
  · simp [hf]
    rw [pyGet_pySet_other _ "alt" "Image" "src" (by decide)]
    exact pyGet_pySet_self a "src" _
  · simp [hf]
    exact pyGet_pySet_self a "src" _

theorem imgRewrite_alt (a : Attrs) (fname : String) :
    ∃ v, pyGet (imgRewrite a fname) "alt" = some v ∧ ¬ v = "" := by
  unfold imgRewrite
  by_cases hf : altFalsyB (pySet a "src" ("images/" ++ fname)) = true
  · refine ⟨"Image", ?_, by decide⟩
    simp [hf]
    exact pyGet_pySet_self _ "alt" "Image"
  · unfold altFalsyB at hf
    cases hg : pyGet (pySet a "src" ("images/" ++ fname)) "alt" with
    | none => rw [hg] at hf; simp at hf
    | some v =>
      rw [hg] at hf
      simp at hf
      exact ⟨v, by simp [altFalsyB, hg, hf], hf⟩

/-! ### The `apply_placeholders` state invariant -/

theorem pyGet_zip_get : ∀ (ns vs : List String), ns.Nodup →
    ∀ i (h1 : i < ns.length) (h2 : i < vs.length),
      pyGet (ns.zip vs) (ns.get ⟨i, h1⟩) = some (vs.get ⟨i, h2⟩)
  | [], _, _, i, h1, _ => by simp at h1
  | _ :: _, [], _, i, _, h2 => by simp at h2
  | n :: ns, v :: vs, hnd, 0, h1, h2 => by simp [pyGet, List.find?]
  | n :: ns, v :: vs, hnd, i + 1, h1, h2 => by
    have h1' : i < ns.length := by simpa using h1
    have h2' : i < vs.length := by simpa using h2
    have hni : ¬ ns.get ⟨i, h1'⟩ = n := by
      intro hc
      exact (List.nodup_cons.mp hnd).1 (hc ▸ List.get_mem ns i h1')
    have hnis : ¬ n = ns.get ⟨i, h1'⟩ := fun hc => hni hc.symm
    have hnis2 : ¬ n = ns[i] := by simpa using hnis
    have ihh := pyGet_zip_get ns vs (List.nodup_cons.mp hnd).2 i h1' h2'
    calc pyGet ((n :: ns).zip (v :: vs)) ((n :: ns).get ⟨i + 1, h1⟩)
        = pyGet ((n, v) :: ns.zip vs) (ns.get ⟨i, h1'⟩) := by
          simp [List.zip_cons_cons]
      _ = pyGet (ns.zip vs) (ns.get ⟨i, h1'⟩) := by
          simp [pyGet, List.find?, hnis2]
      _ = some (vs.get ⟨i, h2'⟩) := ihh
      _ = some ((v :: vs).get ⟨i + 1, h2⟩) := by simp

theorem stInv_empty : stInv PSt.empty := by
  refine ⟨rfl, rfl, ?_⟩
  intro i h
  simp [PSt.empty] at h

theorem new_filename_index (st : PSt) (url : String) (h : stInv st) :
    imgIndexOf (new_filename_for st url) = st.names.length + 1 := by
  obtain ⟨hmap, hlen, _⟩ := h
  have hmlen : st.map.length = st.names.length := by
    rw [hmap, List.length_zip, hlen]
    simp
  show imgIndexOf (placeholderName (st.map.length + 1) (guess_ext_from_url url))
      = st.names.length + 1
  rw [imgIndexOf_placeholderName, hmlen]

theorem stInv_step (st : PSt) (url : String) (h : stInv st) :
    stInv { map := pySet st.map (new_filename_for st url) url
            nameFor := pySet st.nameFor url (new_filename_for st url)
            images := st.images ++ [url]
            names := st.names ++ [new_filename_for st url]
            slot := st.slot + 1 } := by
  obtain ⟨hmap, hlen, hidx⟩ := h
  have hfname := new_filename_index st url ⟨hmap, hlen, hidx⟩
  have hfresh : ∀ p ∈ st.map, ¬ p.1 = new_filename_for st url := by
    intro p hp hc
    obtain ⟨p1, p2⟩ := p
    rw [hmap] at hp
    have hmem : p1 ∈ st.names := (List.of_mem_zip hp).1
    obtain ⟨⟨j, hj⟩, hjeq⟩ := List.mem_iff_get.mp hmem
    have hidxj := hidx j hj
    rw [hjeq] at hidxj
    simp only at hc
    rw [hc, hfname] at hidxj
    omega
  refine ⟨?_, ?_, ?_⟩
  · show pySet st.map (new_filename_for st url) url
      = (st.names ++ [new_filename_for st url]).zip (st.images ++ [url])
    rw [pySet_append_of_not_mem _ _ _ hfresh, hmap, List.zip_append hlen]
    simp
  · simp [hlen]
  · intro i hi
    simp only [List.length_append, List.length_singleton] at hi
    by_cases hlt : i < st.names.length
    · have hg : (st.names ++ [new_filename_for st url]).get ⟨i, by simp; omega⟩
          = st.names.get ⟨i, hlt⟩ := by
        simp only [List.get_eq_getElem]
        exact List.getElem_append_left hlt
      rw [hg]
      exact hidx i hlt
    · have hieq : i = st.names.length := by omega
      subst hieq
      have hg : (st.names ++ [new_filename_for st url]).get ⟨st.names.length, by simp⟩
          = new_filename_for st url := by
        simp [List.get_eq_getElem]
      rw [hg, hfname]

theorem walkImgs_stInv (f : Dom) : ∀ pt pa st, stInv st →
    stInv (walkImgs pt pa st f).2.1 := by
  induction f with
  | nil => intro pt pa st h; simpa [walkImgs] using h
  | text s nx ih => intro pt pa st h; simpa [walkImgs] using ih pt pa st h
  | elem t a c nx ihc ihn =>
    intro pt pa st h
    by_cases ht : t = "img"
    · subst ht
      by_cases hskip : skipBannerB a = true
      · simpa [walkImgs, hskip] using ihn pt pa st h
      · cases hsrc : get_img_src a with
        | none =>
          simpa [walkImgs, hskip, hsrc] using ihn pt pa st h
        | some url =>
          cases hdup : pyGet st.nameFor url with
          | some fname =>
            simpa [walkImgs, hskip, hsrc, hdup] using
              ihn pt (if pt = "figure" then pyDel pa "data-img-slot" else pa) st h
          | none =>
            have hstep := stInv_step st url h
            by_cases hfig : pt = "figure"
            · simpa [walkImgs, hskip, hsrc, hdup, hfig] using
                ihn pt (pySet pa "data-img-slot" (Nat.repr st.slot)) _ hstep
            · simpa [walkImgs, hskip, hsrc, hdup, hfig] using
                ihn pt pa _ hstep
    · have h1 := ihc t a st h
      have h2 := ihn pt pa (walkImgs t a st c).2.1 h1
      simpa [walkImgs, ht] using h2

theorem stInv_banner_seeded (b : String) :
    stInv ⟨[(new_filename_for PSt.empty b, b)], [(b, new_filename_for PSt.empty b)],
           [b], [new_filename_for PSt.empty b], 2⟩ := by
  refine ⟨rfl, rfl, ?_⟩
  intro i hi
  simp only [List.length_singleton] at hi
  have hieq : i = 0 := by omega
  subst hieq
  have := new_filename_index PSt.empty b stInv_empty
  simpa [PSt.empty] using this

/-- The outputs of `apply_placeholders` are the projections of one final
loop state satisfying `stInv`. -/
theorem apply_placeholders_state (article : Dom) (banner : Option String) :
    ∃ st : PSt, stInv st ∧
      st.map = (apply_placeholders article banner).2.1 ∧
      st.images = (apply_placeholders article banner).2.2.1 ∧
      st.names = (apply_placeholders article banner).2.2.2 := by
  cases article with
  | nil => exact ⟨PSt.empty, stInv_empty, rfl, rfl, rfl⟩
  | text s nx => exact ⟨PSt.empty, stInv_empty, rfl, rfl, rfl⟩
  | elem t a c nx =>
    cases hb : banner with
    | none =>
      exact ⟨(walkImgs t a PSt.empty c).2.1,
        walkImgs_stInv c t a PSt.empty stInv_empty, rfl, rfl, rfl⟩
    | some b0 =>
      by_cases hb0 : b0 = ""
      · refine ⟨(walkImgs t a PSt.empty c).2.1,
          walkImgs_stInv c t a PSt.empty stInv_empty, ?_, ?_, ?_⟩ <;>
          simp [apply_placeholders, hb0]
      · cases hn : normalize_url (some b0) with
        | none =>
          refine ⟨(walkImgs t a PSt.empty c).2.1,
            walkImgs_stInv c t a PSt.empty stInv_empty, ?_, ?_, ?_⟩ <;>
            simp [apply_placeholders, hb0, hn]
        | some b =>
          refine ⟨(walkImgs t a
              ⟨[(new_filename_for PSt.empty b, b)], [(b, new_filename_for PSt.empty b)],
               [b], [new_filename_for PSt.empty b], 2⟩
              (Dom.withNext (bannerBlock (new_filename_for PSt.empty b)) c)).2.1,
            walkImgs_stInv _ t a _ (stInv_banner_seeded b), ?_, ?_, ?_⟩ <;>
            simp [apply_placeholders, hb0, hn]

/-- Encounter-order ordinals: for every article and banner, the i-th
generated filename (banner first, then document order) encodes ordinal
`i + 1` — the first image encountered receives the lowest ordinal. -/
theorem apply_placeholders_names_ordinal (article : Dom) (banner : Option String)
    (i : Nat) (h : i < (apply_placeholders article banner).2.2.2.length) :
    imgIndexOf ((apply_placeholders article banner).2.2.2.get ⟨i, h⟩) = i + 1 := by
  obtain ⟨st, hinv, _, _, hn⟩ := apply_placeholders_state article banner
  obtain ⟨_, _, hidx⟩ := hinv
  revert h
  rw [← hn]
  exact hidx i

/-- Claim C9: the three output structures of `apply_placeholders` are
mutually consistent — `len(images) = len(image_names) = len(image_url_map)`,
the filenames are pairwise distinct, and `image_names[i]` is a key of
`image_url_map` mapped to `images[i]`. -/
theorem apply_placeholders_invariants (article : Dom) (banner : Option String)
    (tree : Dom) (m : Attrs) (imgs names : List String)
    (heq : apply_placeholders article banner = (tree, m, imgs, names)) :
    imgs.length = names.length ∧ m.length = names.length ∧ names.Nodup ∧
    ∀ i (h1 : i < names.length) (h2 : i < imgs.length),
      pyGet m (names.get ⟨i, h1⟩) = some (imgs.get ⟨i, h2⟩) := by
  have key : ∃ st : PSt, stInv st ∧ st.map = m ∧ st.images = imgs ∧ st.names = names := by
    obtain ⟨st, hinv, h1, h2, h3⟩ := apply_placeholders_state article banner
    rw [heq] at h1 h2 h3
    exact ⟨st, hinv, h1, h2, h3⟩
  obtain ⟨st, hinv, hm, himgs, hnames⟩ := key
  subst hm
  subst himgs
  subst hnames
  obtain ⟨hmap, hlen, hidx⟩ := hinv
  have hnodup : st.names.Nodup := by
    rw [List.nodup_iff_injective_get]
    intro i j hij
    have hi := hidx i.1 i.2
    have hj := hidx j.1 j.2
    rw [hij] at hi
    rw [hi] at hj
    exact Fin.ext (by omega)
  refine ⟨hlen.symm, ?_, hnodup, ?_⟩
  · rw [hmap, List.length_zip, hlen]
    simp
  · intro i h1 h2
    rw [hmap]
    exact pyGet_zip_get st.names st.images hnodup i h1 h2

/-- Claim C6: a body `img` whose resolved URL already has an ordinal
(the banner's included) is merged — `src` is rewritten to the existing
placeholder path, `alt` is made non-empty, no state (ordinal/slot) change
occurs, the node is not wrapped, and a surrounding figure's slot marker is
deleted. -/
theorem walkImgs_duplicate_merged (pt : String) (pa : Attrs) (st : PSt) (a : Attrs)
    (c nx : Dom) (url fname : String)
    (hskip : skipBannerB a = false)
    (hsrc : get_img_src a = some url)
    (hdup : pyGet st.nameFor url = some fname) :
    walkImgs pt pa st (.elem "img" a c nx)
      = ((walkImgs pt (if pt = "figure" then pyDel pa "data-img-slot" else pa) st nx).1,
         (walkImgs pt (if pt = "figure" then pyDel pa "data-img-slot" else pa) st nx).2.1,
         .elem "img" (imgRewrite a fname) c
           (walkImgs pt (if pt = "figure" then pyDel pa "data-img-slot" else pa) st nx).2.2) ∧
    pyGet (imgRewrite a fname) "src" = some ("images/" ++ fname) ∧
    (∃ v, pyGet (imgRewrite a fname) "alt" = some v ∧ ¬ v = "") ∧
    (pt = "figure" → pyGet (pyDel pa "data-img-slot") "data-img-slot" = none) := by
  refine ⟨?_, imgRewrite_src a fname, imgRewrite_alt a fname, fun _ => pyGet_pyDel_self pa _⟩
  simp [walkImgs, hskip, hsrc, hdup]

/-! ### The loop as a fold over resolved URLs (claim C2) -/

theorem stepSt_new (st : PSt) (url : String) (h : pyGet st.nameFor url = none) :
    stepSt st url
      = ⟨pySet st.map (new_filename_for st url) url,
         pySet st.nameFor url (new_filename_for st url),
         st.images ++ [url], st.names ++ [new_filename_for st url], st.slot + 1⟩ := by
  simp [stepSt, h]

theorem stepSt_dup (st : PSt) (url fname : String)
    (h : pyGet st.nameFor url = some fname) : stepSt st url = st := by
  simp [stepSt, h]

theorem srcsOf_cons_new (st : PSt) (u : String) (rest : List String)
    (h : pyGet st.nameFor u = none) :
    srcsOf st (u :: rest)
      = some ("images/" ++ new_filename_for st u) :: srcsOf (stepSt st u) rest := by
  simp [srcsOf, h]

theorem srcsOf_cons_dup (st : PSt) (u fname : String) (rest : List String)
    (h : pyGet st.nameFor u = some fname) :
    srcsOf st (u :: rest) = some ("images/" ++ fname) :: srcsOf st rest := by
  simp [srcsOf, h, stepSt_dup st u fname h]

theorem srcsOf_append (l1 l2 : List String) : ∀ st : PSt,
    srcsOf st (l1 ++ l2) = srcsOf st l1 ++ srcsOf (List.foldl stepSt st l1) l2 := by
  induction l1 with
  | nil => intro st; simp [srcsOf]
  | cons u rest ih => intro st; simp [srcsOf, List.foldl, ih]

/-- The loop over a forest of skip-free, childless-img nodes is the fold
of `stepSt` over the document-order resolved URLs, and the surviving
images' `src` values are `srcsOf` of that same list. -/
theorem walkImgs_fold (f : Dom) : ∀ pt pa st,
    (∀ x ∈ imgAttrsList f, skipBannerB x = false) →
    imgsChildless f = true →
    (walkImgs pt pa st f).2.1
        = List.foldl stepSt st ((imgAttrsList f).filterMap get_img_src) ∧
    (imgAttrsList (walkImgs pt pa st f).2.2).map (fun x => pyGet x "src")
        = srcsOf st ((imgAttrsList f).filterMap get_img_src) := by
  induction f with
  | nil => intro pt pa st hs hcl; exact ⟨rfl, rfl⟩
  | text s nx ih =>
    intro pt pa st hs hcl
    simp only [imgAttrsList] at hs ⊢
    simp only [imgsChildless] at hcl
    obtain ⟨h1, h2⟩ := ih pt pa st hs hcl
    constructor
    · simpa [walkImgs] using h1
    · simpa [walkImgs, imgAttrsList] using h2
  | elem t a c nx ihc ihn =>
    intro pt pa st hs hcl
    by_cases ht : t = "img"
    · subst ht
      simp [imgsChildless] at hcl
      obtain ⟨hcnil, hcn⟩ := hcl
      subst hcnil
      have hsa : skipBannerB a = false := hs a (by simp [imgAttrsList])
      have hsn : ∀ x ∈ imgAttrsList nx, skipBannerB x = false := by
        intro x hx
        exact hs x (by simp [imgAttrsList, hx])
      cases hsrc : get_img_src a with
      | none =>
        obtain ⟨h1, h2⟩ := ihn pt pa st hsn hcn
        constructor
        · simpa [walkImgs, hsa, hsrc, imgAttrsList] using h1
        · simpa [walkImgs, hsa, hsrc, imgAttrsList] using h2
      | some url =>
        cases hdup : pyGet st.nameFor url with
        | some fname =>
          obtain ⟨h1, h2⟩ :=
            ihn pt (if pt = "figure" then pyDel pa "data-img-slot" else pa) st hsn hcn
          refine ⟨?_, ?_⟩
          · simp only [walkImgs, hsa, hsrc, hdup, Bool.false_eq_true, if_false]
            simp [imgAttrsList, h1, List.filterMap_cons, hsrc,
              stepSt_dup st url fname hdup]
          · simp only [walkImgs, hsa, hsrc, hdup, Bool.false_eq_true, if_false]
            simp [imgAttrsList, h2, List.filterMap_cons, hsrc,
              srcsOf_cons_dup st url fname _ hdup, imgRewrite_src]
        | none =>
          by_cases hfig : pt = "figure"
          · subst hfig
            obtain ⟨h1, h2⟩ :=
              ihn "figure" (pySet pa "data-img-slot" (Nat.repr st.slot)) (stepSt st url) hsn hcn
            rw [stepSt_new st url hdup] at h1 h2
            refine ⟨?_, ?_⟩
            · simp only [walkImgs, hsa, hsrc, hdup, Bool.false_eq_true, if_false]
              simp [imgAttrsList, h1, List.filterMap_cons, hsrc, List.foldl,
                stepSt_new st url hdup]
            · simp only [walkImgs, hsa, hsrc, hdup, Bool.false_eq_true, if_false]
              simp [imgAttrsList, h2, List.filterMap_cons, hsrc,
                srcsOf_cons_new st url _ hdup, stepSt_new st url hdup, imgRewrite_src]
          · obtain ⟨h1, h2⟩ := ihn pt pa (stepSt st url) hsn hcn
            rw [stepSt_new st url hdup] at h1 h2
            refine ⟨?_, ?_⟩
            · simp only [walkImgs, hsa, hsrc, hdup, hfig, Bool.false_eq_true, if_false]
              simp [imgAttrsList, h1, List.filterMap_cons, hsrc, List.foldl,
                stepSt_new st url hdup]
            · simp only [walkImgs, hsa, hsrc, hdup, hfig, Bool.false_eq_true, if_false]
              simp [imgAttrsList, h2, List.filterMap_cons, hsrc,
                srcsOf_cons_new st url _ hdup, stepSt_new st url hdup, imgRewrite_src]
    · simp only [imgsChildless, if_neg ht, Bool.and_eq_true] at hcl
      obtain ⟨hcc, hcn⟩ := hcl
      have hsc : ∀ x ∈ imgAttrsList c, skipBannerB x = false := by
        intro x hx
        exact hs x (by simp [imgAttrsList, hx, ht])
      have hsn : ∀ x ∈ imgAttrsList nx, skipBannerB x = false := by
        intro x hx
        exact hs x (by simp [imgAttrsList, hx, ht])
      obtain ⟨hc1, hc2⟩ := ihc t a st hsc hcc
      obtain ⟨hn1, hn2⟩ := ihn pt pa (walkImgs t a st c).2.1 hsn hcn
      rw [hc1] at hn1 hn2
      refine ⟨?_, ?_⟩
      · simp [walkImgs, ht, imgAttrsList, hn1, hc1, List.filterMap_append,
          List.foldl_append]
      · simp [walkImgs, ht, imgAttrsList, hn2, hc2, hc1, List.filterMap_append,
          srcsOf_append]

/-- Once a URL has a filename in `name_for_url`, the rest of the walk
never changes it: within one call the same URL always maps to the same
filename. -/
theorem walkImgs_nameFor_stable (f : Dom) : ∀ (pt : String) (pa : Attrs) (st : PSt)
    (url fname : String), pyGet st.nameFor url = some fname →
    pyGet (walkImgs pt pa st f).2.1.nameFor url = some fname := by
  induction f with
  | nil => intro pt pa st url fname h; simpa [walkImgs] using h
  | text s nx ih =>
    intro pt pa st url fname h
    simpa [walkImgs] using ih pt pa st url fname h
  | elem t a c nx ihc ihn =>
    intro pt pa st url fname h
    by_cases ht : t = "img"
    · subst ht
      by_cases hskip : skipBannerB a = true
      · simpa [walkImgs, hskip] using ihn pt pa st url fname h
      · cases hsrc : get_img_src a with
        | none => simpa [walkImgs, hskip, hsrc] using ihn pt pa st url fname h
        | some u2 =>
          cases hdup : pyGet st.nameFor u2 with
          | some f2 =>
            simpa [walkImgs, hskip, hsrc, hdup] using
              ihn pt (if pt = "figure" then pyDel pa "data-img-slot" else pa) st url fname h
          | none =>
            have hne : ¬ u2 = url := by
              intro hc
              rw [hc, h] at hdup
              exact Option.noConfusion hdup
            have hpres : pyGet (pySet st.nameFor u2 (new_filename_for st u2)) url
                = some fname := by
              rw [pyGet_pySet_other st.nameFor u2 (new_filename_for st u2) url
                (fun hc => hne hc.symm)]
              exact h
            by_cases hfig : pt = "figure"
            · simpa [walkImgs, hskip, hsrc, hdup, hfig] using
                ihn pt (pySet pa "data-img-slot" (Nat.repr st.slot)) _ url fname hpres
            · simpa [walkImgs, hskip, hsrc, hdup, hfig] using
                ihn pt pa _ url fname hpres
    · have h1 := ihc t a st url fname h
      have h2 := ihn pt pa (walkImgs t a st c).2.1 url fname h1
      simpa [walkImgs, ht] using h2

theorem placeholderName_ne (i j : Nat) (e1 e2 : String) (hij : ¬ i = j) :
    ¬ placeholderName i e1 = placeholderName j e2 := by
  intro hc
  have h1 := imgIndexOf_placeholderName i e1
  rw [hc, imgIndexOf_placeholderName] at h1
  exact hij h1.symm

/-- The fold and the src sequence for the `[A, B, A, C]` resolution
pattern, computed symbolically over pairwise-distinct URLs. -/
theorem foldABAC (A B C : String) (hAB : ¬ A = B) (hAC : ¬ A = C) (hBC : ¬ B = C) :
    List.foldl stepSt PSt.empty [A, B, A, C]
      = ⟨[(placeholderName 1 (guess_ext_from_url A), A),
          (placeholderName 2 (guess_ext_from_url B), B),
          (placeholderName 3 (guess_ext_from_url C), C)],
         [(A, placeholderName 1 (guess_ext_from_url A)),
          (B, placeholderName 2 (guess_ext_from_url B)),
          (C, placeholderName 3 (guess_ext_from_url C))],
         [A, B, C],
         [placeholderName 1 (guess_ext_from_url A),
          placeholderName 2 (guess_ext_from_url B),
          placeholderName 3 (guess_ext_from_url C)], 4⟩ ∧
    srcsOf PSt.empty [A, B, A, C]
      = [some ("images/" ++ placeholderName 1 (guess_ext_from_url A)),
         some ("images/" ++ placeholderName 2 (guess_ext_from_url B)),
         some ("images/" ++ placeholderName 1 (guess_ext_from_url A)),
         some ("images/" ++ placeholderName 3 (guess_ext_from_url C))] := by
  have hn12 := placeholderName_ne 1 2 (guess_ext_from_url A) (guess_ext_from_url B) (by omega)
  have hn13 := placeholderName_ne 1 3 (guess_ext_from_url A) (guess_ext_from_url C) (by omega)
  have hn23 := placeholderName_ne 2 3 (guess_ext_from_url B) (guess_ext_from_url C) (by omega)
  have hg1 : pyGet PSt.empty.nameFor A = none := rfl
  have s1 : stepSt PSt.empty A
      = (⟨[(placeholderName 1 (guess_ext_from_url A), A)],
          [(A, placeholderName 1 (guess_ext_from_url A))],
          [A], [placeholderName 1 (guess_ext_from_url A)], 2⟩ : PSt) := rfl
  have hg2 : pyGet (⟨[(placeholderName 1 (guess_ext_from_url A), A)],
      [(A, placeholderName 1 (guess_ext_from_url A))],
      [A], [placeholderName 1 (guess_ext_from_url A)], 2⟩ : PSt).nameFor B = none := by
    simp [pyGet, List.find?, hAB]
  have e2 : new_filename_for (⟨[(placeholderName 1 (guess_ext_from_url A), A)],
      [(A, placeholderName 1 (guess_ext_from_url A))],
      [A], [placeholderName 1 (guess_ext_from_url A)], 2⟩ : PSt) B
      = placeholderName 2 (guess_ext_from_url B) := rfl
  have s2 : stepSt (⟨[(placeholderName 1 (guess_ext_from_url A), A)],
      [(A, placeholderName 1 (guess_ext_from_url A))],
      [A], [placeholderName 1 (guess_ext_from_url A)], 2⟩ : PSt) B
      = (⟨[(placeholderName 1 (guess_ext_from_url A), A),
           (placeholderName 2 (guess_ext_from_url B), B)],
          [(A, placeholderName 1 (guess_ext_from_url A)),
           (B, placeholderName 2 (guess_ext_from_url B))],
          [A, B],
          [placeholderName 1 (guess_ext_from_url A),
           placeholderName 2 (guess_ext_from_url B)], 3⟩ : PSt) := by
    rw [stepSt_new _ _ hg2, e2]
    simp [pySet, hn12, hAB]
  have hg3 : pyGet (⟨[(placeholderName 1 (guess_ext_from_url A), A),
      (placeholderName 2 (guess_ext_from_url B), B)],
      [(A, placeholderName 1 (guess_ext_from_url A)),
       (B, placeholderName 2 (guess_ext_from_url B))],
      [A, B],
      [placeholderName 1 (guess_ext_from_url A),
       placeholderName 2 (guess_ext_from_url B)], 3⟩ : PSt).nameFor A
      = some (placeholderName 1 (guess_ext_from_url A)) := by
    simp [pyGet, List.find?]
  have hg4 : pyGet (⟨[(placeholderName 1 (guess_ext_from_url A), A),
      (placeholderName 2 (guess_ext_from_url B), B)],
      [(A, placeholderName 1 (guess_ext_from_url A)),
       (B, placeholderName 2 (guess_ext_from_url B))],
      [A, B],
      [placeholderName 1 (guess_ext_from_url A),
       placeholderName 2 (guess_ext_from_url B)], 3⟩ : PSt).nameFor C = none := by
    simp [pyGet, List.find?, hAC, hBC]
  have e3 : new_filename_for (⟨[(placeholderName 1 (guess_ext_from_url A), A),
      (placeholderName 2 (guess_ext_from_url B), B)],
      [(A, placeholderName 1 (guess_ext_from_url A)),
       (B, placeholderName 2 (guess_ext_from_url B))],
      [A, B],
      [placeholderName 1 (guess_ext_from_url A),
       placeholderName 2 (guess_ext_from_url B)], 3⟩ : PSt) C
      = placeholderName 3 (guess_ext_from_url C) := rfl
  have s4 : stepSt (⟨[(placeholderName 1 (guess_ext_from_url A), A),
      (placeholderName 2 (guess_ext_from_url B), B)],
      [(A, placeholderName 1 (guess_ext_from_url A)),
       (B, placeholderName 2 (guess_ext_from_url B))],
      [A, B],
      [placeholderName 1 (guess_ext_from_url A),
       placeholderName 2 (guess_ext_from_url B)], 3⟩ : PSt) C
      = (⟨[(placeholderName 1 (guess_ext_from_url A), A),
           (placeholderName 2 (guess_ext_from_url B), B),
           (placeholderName 3 (guess_ext_from_url C), C)],
          [(A, placeholderName 1 (guess_ext_from_url A)),
           (B, placeholderName 2 (guess_ext_from_url B)),
           (C, placeholderName 3 (guess_ext_from_url C))],
          [A, B, C],
          [placeholderName 1 (guess_ext_from_url A),
           placeholderName 2 (guess_ext_from_url B),
           placeholderName 3 (guess_ext_from_url C)], 4⟩ : PSt) := by
    rw [stepSt_new _ _ hg4, e3]
    simp [pySet, hn13, hn23, hAC, hBC]
  constructor
  · show stepSt (stepSt (stepSt (stepSt PSt.empty A) B) A) C = _
    rw [s1, s2, stepSt_dup _ _ _ hg3, s4]
  · rw [srcsOf_cons_new PSt.empty A _ hg1, s1,
      srcsOf_cons_new _ B _ hg2, e2, s2,
      srcsOf_cons_dup _ A _ _ hg3,
      srcsOf_cons_new _ C _ hg4, e3]
    show _ = _
    rfl

/-- Claim C2: for every body whose processed `img` elements resolve, in
document order, to URLs `[A, B, A, C]` (pairwise distinct) and with no
banner, `apply_placeholders` yields `images = [A, B, C]` and
`image_names = [image1.e1, image2.e2, image3.e3]` (extensions per the URL
suffix rule), and the rewritten body's images point, in document order, at
`images/image1`, `images/image2`, `images/image1`, `images/image3` — every
occurrence of `A` at `image1`.  More generally, within one call a URL's
filename, once assigned, never changes through the rest of the walk, and
for every article and banner the i-th filename in encounter order (banner
first, then document order) carries ordinal `i + 1`, so the first image
encountered receives the lowest ordinal. -/
theorem apply_placeholders_ordinal_stability
    (t : String) (a0 : Attrs) (c : Dom) (A B C : String)
    (ht : ¬ t = "img")
    (hAB : ¬ A = B) (hAC : ¬ A = C) (hBC : ¬ B = C)
    (hfm : (imgAttrsList c).filterMap get_img_src = [A, B, A, C])
    (hskip : ∀ x ∈ imgAttrsList c, skipBannerB x = false)
    (hcl : imgsChildless c = true) :
    ((apply_placeholders (.elem t a0 c .nil) none).2.2.1 = [A, B, C] ∧
     (apply_placeholders (.elem t a0 c .nil) none).2.2.2
       = [placeholderName 1 (guess_ext_from_url A),
          placeholderName 2 (guess_ext_from_url B),
          placeholderName 3 (guess_ext_from_url C)] ∧
     (imgAttrsList (apply_placeholders (.elem t a0 c .nil) none).1).map
         (fun x => pyGet x "src")
       = [some ("images/" ++ placeholderName 1 (guess_ext_from_url A)),
          some ("images/" ++ placeholderName 2 (guess_ext_from_url B)),
          some ("images/" ++ placeholderName 1 (guess_ext_from_url A)),
          some ("images/" ++ placeholderName 3 (guess_ext_from_url C))]) ∧
    (∀ (f : Dom) (pt : String) (pa : Attrs) (st : PSt) (url fname : String),
      pyGet st.nameFor url = some fname →
      pyGet (walkImgs pt pa st f).2.1.nameFor url = some fname) ∧
    (∀ (article : Dom) (banner : Option String) (i : Nat)
      (h : i < (apply_placeholders article banner).2.2.2.length),
      imgIndexOf ((apply_placeholders article banner).2.2.2.get ⟨i, h⟩) = i + 1) := by
  refine ⟨?_, walkImgs_nameFor_stable, apply_placeholders_names_ordinal⟩
  obtain ⟨hstate, hsrcs⟩ := walkImgs_fold c t a0 PSt.empty hskip hcl
  rw [hfm] at hstate hsrcs
  obtain ⟨hfold, hsrcs4⟩ := foldABAC A B C hAB hAC hBC
  have happ : apply_placeholders (.elem t a0 c .nil) none
      = (.elem t (walkImgs t a0 PSt.empty c).1 (walkImgs t a0 PSt.empty c).2.2 .nil,
         (walkImgs t a0 PSt.empty c).2.1.map,
         (walkImgs t a0 PSt.empty c).2.1.images,
         (walkImgs t a0 PSt.empty c).2.1.names) := rfl
  refine ⟨?_, ?_, ?_⟩
  · rw [happ]
    show (walkImgs t a0 PSt.empty c).2.1.images = [A, B, C]
    rw [hstate, hfold]
  · rw [happ]
    show (walkImgs t a0 PSt.empty c).2.1.names = _
    rw [hstate, hfold]
  · rw [happ]
    show (imgAttrsList (.elem t (walkImgs t a0 PSt.empty c).1
        (walkImgs t a0 PSt.empty c).2.2 .nil)).map (fun x => pyGet x "src") = _
    simp only [imgAttrsList, if_neg ht]
    rw [hsrcs4] at hsrcs
    simp [hsrcs]

/-- Witness for `apply_placeholders_ordinal_stability` at the concrete
`[A, B, A, C]` body with three distinct `.png` URLs: `images = [A, B, C]`,
`image_names = [image1.png, image2.png, image3.png]`, and the four output
images point at `image1`, `image2`, `image1`, `image3`. -/
theorem apply_placeholders_ordinal_stability_witness :
    (apply_placeholders exBodyABAC none).2.2.1
      = ["https://cdn.example/a.png", "https://cdn.example/b.png",
         "https://cdn.example/c.png"] ∧
    (apply_placeholders exBodyABAC none).2.2.2
      = [placeholderName 1 (guess_ext_from_url "https://cdn.example/a.png"),
         placeholderName 2 (guess_ext_from_url "https://cdn.example/b.png"),
         placeholderName 3 (guess_ext_from_url "https://cdn.example/c.png")] ∧
    (imgAttrsList (apply_placeholders exBodyABAC none).1).map (fun x => pyGet x "src")
      = [some ("images/" ++ placeholderName 1 (guess_ext_from_url "https://cdn.example/a.png")),
         some ("images/" ++ placeholderName 2 (guess_ext_from_url "https://cdn.example/b.png")),
         some ("images/" ++ placeholderName 1 (guess_ext_from_url "https://cdn.example/a.png")),
         some ("images/" ++ placeholderName 3 (guess_ext_from_url "https://cdn.example/c.png"))] :=
  (apply_placeholders_ordinal_stability "div" []
    (imgSrc "https://cdn.example/a.png"
      (imgSrc "https://cdn.example/b.png"
        (imgSrc "https://cdn.example/a.png"
          (imgSrc "https://cdn.example/c.png" .nil))))
    "https://cdn.example/a.png" "https://cdn.example/b.png" "https://cdn.example/c.png"
    (by decide) (by decide) (by decide) (by decide) (by decide) (by decide) (by decide)).1

/-! ### URL normalization evaluations (claim C7) -/

/-- Claim C7 (amended): `normalize_url` turns a protocol-relative URL into
`https`, rejects a non-URL, and — having no canonical-asset mode — returns
a query-suffixed URL with its query string intact. -/
theorem normalize_url_eval :
    normalize_url (some "//cdn.example.com/a.png") = some "https://cdn.example.com/a.png" ∧
    normalize_url (some "not a url") = none ∧
    normalize_url (some "https://x.com/a.png?w=800") = some "https://x.com/a.png?w=800" := by
  refine ⟨?_, ?_, ?_⟩ <;> decide

/-- Claim C7 counterexample: the query string of
`https://x.com/a.png?w=800` is not stripped by `_normalize_url` — the
claimed canonical-asset mode does not exist in the code. -/
theorem normalize_url_query_not_stripped :
    ¬ normalize_url (some "https://x.com/a.png?w=800") = some "https://x.com/a.png" := by
  decide

/-! ### `extract_images` (claim C8) -/

/-- Claim C8 (evaluation at the failing input): scanning a container with
two images inserts exactly their two URLs, in document order, into the
`image_urls` set — which `extract_images` then returns as `list(set)`,
in unspecified hash order. -/
theorem extract_images_adds_eval :
    extract_images_adds exForestTwoImgs
      = ["https://a.example/1.png", "https://b.example/2.png"] := by
  decide

/-! ### Banner precedence (claim C5) -/

theorem selectOneClass_elem (cls : String) (f : Dom) (d : Dom)
    (h : selectOneClass cls f = some d) : ∃ t a c, d = .elem t a c .nil := by
  induction f with
  | nil => simp [selectOneClass] at h
  | text s nx ih => exact ih (by simpa [selectOneClass] using h)
  | elem t a c nx ihc ihn =>
    by_cases hcl : hasClass a cls = true
    · simp [selectOneClass, hcl] at h
      exact ⟨t, a, c, h.symm⟩
    · simp [selectOneClass, hcl] at h
      cases hc : selectOneClass cls c with
      | some d1 =>
        rw [hc] at h
        simp at h
        exact ihc (by rw [hc, h])
      | none =>
        rw [hc] at h
        exact ihn h

/-- Claim C5 (amended): `find_banner_url` is exactly the left-biased
chain wrapper-branch / any-background-image-branch / og:image-branch —
the structural wrapper signal (when it yields a normalized URL) takes
precedence over Open-Graph metadata, and og:image is consulted only when
the two earlier branches both yield none. -/
theorem find_banner_url_decomposition (doc : Dom) :
    find_banner_url doc
      = ((wrapperBranch doc).orElse fun _ =>
          (anyBgBranch doc).orElse fun _ => ogBranch doc) := by
  unfold find_banner_url wrapperBranch
  cases hsel : selectOneClass "wrapper-banner-image" doc with
  | none =>
    cases hbg : anyBgBranch doc <;> simp [Option.orElse, hbg]
  | some d =>
    obtain ⟨t, a, c, rfl⟩ := selectOneClass_elem _ _ _ hsel
    cases hws : wrapStyleUrl a with
    | some u => simp [Option.orElse, hws]
    | none =>
      cases hwi : wrapImgUrl c with
      | some u => simp [Option.orElse, hws, hwi]
      | none =>
        cases hbg : anyBgBranch doc <;> simp [Option.orElse, hws, hwi, hbg]

/-- Claim C5 counterexample: a document whose `.wrapper-banner-image`
element declares `background-image: url(/rel.png)` together with an
`og:image` of `https://y.example/y.png`: the resolver returns the
og:image value, not the wrapper's `X` — and og:image is used although a
`background-image` style exists in the document. -/
theorem find_banner_url_og_despite_wrapper :
    find_banner_url exDocWrapperRel = some "https://y.example/y.png" ∧
    (selectOneClass "wrapper-banner-image" exDocWrapperRel).isSome = true ∧
    searchBg "background-image:url(/rel.png)".data = some "/rel.png" ∧
    hasBgStyle exDocWrapperRel = true := by
  refine ⟨?_, ?_, ?_, ?_⟩ <;> decide

/-! ### Root location (claim C10) -/

theorem findPathPFrom_none (p : String → Attrs → Bool) (f : Dom)
    (h : existsElemP p f = false) : ∀ i, findPathPFrom p i f = none := by
  induction f with
  | nil => intro i; rfl
  | text s nx ih =>
    intro i
    simp only [existsElemP] at h
    simp [findPathPFrom, ih h]
  | elem t a c nx ihc ihn =>
    intro i
    simp only [existsElemP, Bool.or_eq_false_iff] at h
    obtain ⟨⟨hp, hc⟩, hn⟩ := h
    simp [findPathPFrom, hp, ihc hc, ihn hn]

theorem firstClassDivPath_none (cls : List String) (dc : Dom)
    (h : ∀ c ∈ cls, hasDivClass c dc = false) :
    firstClassDivPath cls dc = none := by
  induction cls with
  | nil => rfl
  | cons c rest ih =>
    have hc := findPathPFrom_none _ dc (h c (by simp)) 0
    simp [firstClassDivPath, hc]
    exact ih fun x hx => h x (by simp [hx])

/-- Claim C10 (amended): when the page has no `article` element, no `div`
with a designated content class, and no `body`, root location falls back
to the whole document — `extract_blog_content` never reports an
extraction failure for a missing root. -/
theorem find_root_whole_document (dc : Dom)
    (h1 : hasTag "article" dc = false)
    (h2 : ∀ cls ∈ CONTENT_CLASSES, hasDivClass cls dc = false)
    (h3 : hasTag "body" dc = false) :
    findRootPathIn dc = none := by
  unfold findRootPathIn findPathTag
  rw [findPathPFrom_none _ _ h1 0, firstClassDivPath_none CONTENT_CLASSES dc h2,
    findPathPFrom_none _ _ h3 0]

/-- Witness for `find_root_whole_document` at the parsed `<p>hi</p>`. -/
theorem find_root_whole_document_witness :
    hasTag "article" (Dom.elem "p" [] (.text "hi" .nil) .nil) = false ∧
    (∀ cls ∈ CONTENT_CLASSES,
      hasDivClass cls (Dom.elem "p" [] (.text "hi" .nil) .nil) = false) ∧
    hasTag "body" (Dom.elem "p" [] (.text "hi" .nil) .nil) = false ∧
    findRootPathIn (Dom.elem "p" [] (.text "hi" .nil) .nil) = none :=
  ⟨by decide, by decide, by decide,
    find_root_whole_document _ (by decide) (by decide) (by decide)⟩

/-- Claim C10 counterexample: the document `<p>hi</p>` has no `article`,
no designated content class and no `body`, yet `extract_blog_content`
returns a normal extraction result (the whole document as root) instead
of reporting an extraction failure. -/
theorem extract_blog_content_no_root_returns_result :
    extract_blog_content exDocNoRoot = (exDocNoRoot, [], [], []) ∧
    hasTag "article" (Dom.elem "p" [] (.text "hi" .nil) .nil) = false ∧
    (∀ cls ∈ CONTENT_CLASSES,
      hasDivClass cls (Dom.elem "p" [] (.text "hi" .nil) .nil) = false) ∧
    hasTag "body" (Dom.elem "p" [] (.text "hi" .nil) .nil) = false := by
  refine ⟨?_, ?_, ?_, ?_⟩ <;> decide

/-! ### After sanitization, placeholder assignment deletes every body image
(claim C3) -/

theorem attrsClean_img (a : Attrs) (h : attrsClean "img" a = true) :
    ∃ v, a = [("alt", v)] ∧ ¬ v = "" := by
  match a, h with
  | [(k, v)], h =>
    simp [attrsClean] at h
    exact ⟨v, by rw [h.1.1], h.2⟩

theorem skipBannerB_cleaned_img (v : String) :
    skipBannerB [("alt", v)] = false := by
  simp [skipBannerB, pyGet, List.find?]

theorem get_img_src_cleaned_img (v : String) :
    get_img_src [("alt", v)] = none := by
  simp [get_img_src, attrTruthy, pyGet, List.find?, normalize_url, Option.orElse]

theorem walkImgs_cleaned (f : Dom) (h : cleanedB f = true) :
    ∀ pt pa st, walkImgs pt pa st f = (pa, st, dropImgs f) := by
  induction f with
  | nil => intro pt pa st; rfl
  | text s nx ih =>
    intro pt pa st
    simp only [cleanedB] at h
    simp [walkImgs, dropImgs, ih h]
  | elem t a c nx ihc ihn =>
    intro pt pa st
    simp only [cleanedB, Bool.and_eq_true, decide_eq_true_eq] at h
    obtain ⟨⟨⟨hall, hattr⟩, hc⟩, hn⟩ := h
    by_cases ht : t = "img"
    · subst ht
      obtain ⟨v, hav, hv⟩ := attrsClean_img a hattr
      subst hav
      simp [walkImgs, dropImgs, skipBannerB_cleaned_img v,
        get_img_src_cleaned_img v, ihn hn]
    · simp [walkImgs, dropImgs, ht, ihc hc, ihn hn]

theorem imgAttrsList_dropImgs (f : Dom) : imgAttrsList (dropImgs f) = [] := by
  induction f with
  | nil => rfl
  | text s nx ih => simpa [dropImgs, imgAttrsList] using ih
  | elem t a c nx ihc ihn =>
    by_cases ht : t = "img"
    · simpa [dropImgs, ht] using ihn
    · simp [dropImgs, ht, imgAttrsList, ihc, ihn]

theorem isPrefixL_append_self (l r : List Char) : isPrefixL l (l ++ r) = true := by
  induction l with
  | nil => rfl
  | cons a t ih => simp [isPrefixL, ih]

theorem new_filename_empty_eq (b : String) :
    new_filename_for PSt.empty b = placeholderName 1 (guess_ext_from_url b) := rfl

theorem pyStartsWith_images_placeholder (e : String) :
    pyStartsWith "images/image" ("images/" ++ placeholderName 1 e) = true := by
  show isPrefixL "images/image".data ("images/" ++ placeholderName 1 e).data = true
  have hd : ("images/" ++ placeholderName 1 e).data
      = "images/image".data ++ ('1' :: '.' :: e.data) := by
    show ("images/" ++ ("image" ++ Nat.repr 1 ++ "." ++ e)).data = _
    simp [String.data_append]
    rfl
  rw [hd]
  exact isPrefixL_append_self _ _

theorem images_placeholder_ne_empty (fname : String) :
    ¬ ("images/" ++ fname) = "" := by
  intro h
  have hd : ("images/" ++ fname).data = [] := by rw [h]
  rw [String.data_append] at hd
  simp at hd

theorem skipBannerB_banner (fname : String)
    (hpre : pyStartsWith "images/image" ("images/" ++ fname) = true) :
    skipBannerB [("src", "images/" ++ fname), ("alt", "Banner")] = true := by
  have hne := images_placeholder_ne_empty fname
  simp [skipBannerB, pyGet, List.find?, hne, hpre]
  decide

theorem walkImgs_withBanner (fname : String) (pt : String) (pa : Attrs) (st : PSt)
    (rest : Dom)
    (hsk : skipBannerB [("src", "images/" ++ fname), ("alt", "Banner")] = true) :
    walkImgs pt pa st (Dom.withNext (bannerBlock fname) rest)
      = ((walkImgs pt pa st rest).1, (walkImgs pt pa st rest).2.1,
         Dom.withNext (bannerBlock fname) (walkImgs pt pa st rest).2.2) := by
  simp [Dom.withNext, bannerBlock, walkImgs, hsk]

/-! ### Where root location can point (claim C3's root shape) -/

theorem findPathPFrom_sound (p : String → Attrs → Bool) :
    ∀ (f : Dom) (i : Nat) (q : List Nat), findPathPFrom p i f = some q →
      ∃ j qr, q = (i + j) :: qr ∧
        ∃ t a c, getAtPath f (j :: qr) = some (.elem t a c .nil) ∧ p t a = true := by
  intro f
  induction f with
  | nil => intro i q h; simp [findPathPFrom] at h
  | text s nx ih =>
    intro i q h
    simp only [findPathPFrom] at h
    obtain ⟨j, qr, hq, t, a, c, hget, hp⟩ := ih (i + 1) q h
    refine ⟨j + 1, qr, by rw [hq]; congr 1; omega, t, a, c, ?_, hp⟩
    simpa [getAtPath] using hget
  | elem t a c nx ihc ihn =>
    intro i q h
    by_cases hp : p t a = true
    · simp only [findPathPFrom, hp, if_true] at h
      have hq : q = [i] := (Option.some.inj h).symm
      refine ⟨0, [], by rw [hq]; simp, t, a, c, ?_, hp⟩
      rfl
    · simp only [findPathPFrom, hp, if_false, Bool.false_eq_true] at h
      cases hc : findPathPFrom p 0 c with
      | some qc =>
        rw [hc] at h
        simp at h
        obtain ⟨j, qr, hq, t1, a1, c1, hget, hp1⟩ := ihc 0 qc hc
        refine ⟨0, qc, by rw [← h]; simp, t1, a1, c1, ?_, hp1⟩
        rw [hq]
        simp only [Nat.zero_add]
        cases j with
        | zero => simpa [getAtPath] using hget
        | succ j => simpa [getAtPath] using hget
      | none =>
        rw [hc] at h
        obtain ⟨j, qr, hq, t1, a1, c1, hget, hp1⟩ := ihn (i + 1) q h
        refine ⟨j + 1, qr, by rw [hq]; congr 1; omega, t1, a1, c1, ?_, hp1⟩
        simpa [getAtPath] using hget

theorem firstClassDivPath_sound (cls : List String) (dc : Dom) (q : List Nat)
    (h : firstClassDivPath cls dc = some q) :
    ∃ c0, findPathPFrom (fun tg a => tg = "div" && hasClass a c0) 0 dc = some q := by
  induction cls with
  | nil => simp [firstClassDivPath] at h
  | cons c0 rest ih =>
    simp only [firstClassDivPath] at h
    cases hc : findPathPFrom (fun tg a => tg = "div" && hasClass a c0) 0 dc with
    | some p =>
      rw [hc] at h
      simp at h
      exact ⟨c0, by rw [hc, h]⟩
    | none =>
      rw [hc] at h
      exact ih h

theorem findRootPath_root_shape (dc : Dom) (q : List Nat)
    (h : findRootPathIn dc = some q) :
    ∃ t a c, getAtPath dc q = some (.elem t a c .nil) ∧ ¬ t = "img" := by
  unfold findRootPathIn at h
  cases ha : findPathTag "article" dc with
  | some p =>
    rw [ha] at h
    simp at h
    subst h
    obtain ⟨j, qr, hq, t, a, c, hget, hp⟩ := findPathPFrom_sound _ dc 0 p ha
    simp at hp
    subst hp
    refine ⟨"article", a, c, ?_, by decide⟩
    rw [hq]
    simpa using hget
  | none =>
    rw [ha] at h
    cases hcl : firstClassDivPath CONTENT_CLASSES dc with
    | some p =>
      rw [hcl] at h
      simp at h
      subst h
      obtain ⟨c0, hfind⟩ := firstClassDivPath_sound CONTENT_CLASSES dc p hcl
      obtain ⟨j, qr, hq, t, a, c, hget, hp⟩ := findPathPFrom_sound _ dc 0 p hfind
      simp at hp
      refine ⟨"div", a, c, ?_, by decide⟩
      rw [hq]
      have : t = "div" := hp.1
      subst this
      simpa using hget
    | none =>
      rw [hcl] at h
      obtain ⟨j, qr, hq, t, a, c, hget, hp⟩ := findPathPFrom_sound _ dc 0 q h
      simp at hp
      subst hp
      refine ⟨"body", a, c, ?_, by decide⟩
      rw [hq]
      simpa using hget

theorem articleStage_shape (dt : String) (da : Attrs) (dc dnx : Dom)
    (hdt : ¬ dt = "img") :
    ∃ t a c, articleStage (.elem dt da dc dnx) = .elem t a c .nil ∧ ¬ t = "img" := by
  cases hroot : findRootPathIn dc with
  | none =>
    cases hh1 : findPathTag "h1" dc with
    | none =>
      refine ⟨dt, da, dc, ?_, hdt⟩
      simp [articleStage, hroot, hh1]
    | some q =>
      refine ⟨dt, da,
        Dom.withNext ((getAtPath dc q).getD .nil) (removeAtPath dc q), ?_, hdt⟩
      simp [articleStage, hroot, hh1]
  | some p =>
    obtain ⟨t, a, c, hget, ht⟩ := findRootPath_root_shape dc p hroot
    cases hh1 : findPathTag "h1" dc with
    | none =>
      refine ⟨t, a, c, ?_, ht⟩
      simp [articleStage, hroot, hh1, hget]
    | some q =>
      by_cases hsp : isStrictPrefixB p q = true
      · refine ⟨t, a,
          Dom.withNext ((getAtPath dc q).getD .nil)
            (removeAtPath c (q.drop p.length)), ?_, ht⟩
        simp [articleStage, hroot, hh1, hget, hsp]
      · refine ⟨t, a, Dom.withNext ((getAtPath dc q).getD .nil) c, ?_, ht⟩
        simp [articleStage, hroot, hh1, hget, hsp]

/-- Claim C3 (amended): the pipeline applies no noise filter; instead
`clean_article` strips every image's `src`, after which
`apply_placeholders` deletes every body image (name-like alt or not).
Hence the extraction result's `images` list holds at most the banner URL,
and every `img` surviving in the output markup is the banner placeholder
(alt `Banner`) — in particular an author headshot with `alt="Jane Smith"`
is absent from both outputs, like every other body image. -/
theorem extract_blog_content_images_banner_only
    (dt : String) (da : Attrs) (dc dnx : Dom) (hdt : ¬ dt = "img") :
    ((extract_blog_content (.elem dt da dc dnx)).2.2.1
      = (match find_banner_url dc with
         | some b0 =>
           if b0 = "" then []
           else
             (match normalize_url (some b0) with
              | some b => [b]
              | none => [])
         | none => [])) ∧
    ∀ alt ∈ (imgAttrsList (extract_blog_content (.elem dt da dc dnx)).1).map
        (fun a => (pyGet a "alt").getD ""), alt = "Banner" := by
  obtain ⟨t, a, c, hshape, ht⟩ := articleStage_shape dt da dc dnx hdt
  have hext : extract_blog_content (.elem dt da dc dnx)
      = apply_placeholders (clean_article (articleStage (.elem dt da dc dnx)))
          (find_banner_url dc) := rfl
  rw [hext, hshape]
  have hclean : clean_article (Dom.elem t a c .nil)
      = .elem t a (clean_forest c) .nil := rfl
  rw [hclean]
  have hcln := clean_forest_cleaned c
  cases hb : find_banner_url dc with
  | none =>
    have hwalk := walkImgs_cleaned (clean_forest c) hcln t a (⟨[], [], [], [], 1⟩ : PSt)
    refine ⟨?_, ?_⟩
    · simp only [apply_placeholders, PSt.empty]
      rw [hwalk]
    · simp only [apply_placeholders, PSt.empty]
      rw [hwalk]
      simp [imgAttrsList, ht, imgAttrsList_dropImgs]
  | some b0 =>
    by_cases hb0 : b0 = ""
    · have hwalk := walkImgs_cleaned (clean_forest c) hcln t a (⟨[], [], [], [], 1⟩ : PSt)
      refine ⟨?_, ?_⟩
      · simp only [apply_placeholders, PSt.empty, if_pos hb0]
        rw [hwalk]
      · simp only [apply_placeholders, PSt.empty, if_pos hb0]
        rw [hwalk]
        simp [imgAttrsList, ht, imgAttrsList_dropImgs]
    · cases hn : normalize_url (some b0) with
      | none =>
        have hwalk := walkImgs_cleaned (clean_forest c) hcln t a (⟨[], [], [], [], 1⟩ : PSt)
        refine ⟨?_, ?_⟩
        · simp only [apply_placeholders, PSt.empty, if_neg hb0, hn]
          rw [hwalk]
        · simp only [apply_placeholders, PSt.empty, if_neg hb0, hn]
          rw [hwalk]
          simp [imgAttrsList, ht, imgAttrsList_dropImgs]
      | some b =>
        have hsk := skipBannerB_banner (new_filename_for PSt.empty b)
          (by rw [new_filename_empty_eq]; exact pyStartsWith_images_placeholder _)
        have hwb := walkImgs_withBanner (new_filename_for PSt.empty b) t a
          ⟨[(new_filename_for PSt.empty b, b)], [(b, new_filename_for PSt.empty b)],
           [b], [new_filename_for PSt.empty b], 2⟩ (clean_forest c) hsk
        have hwalk := walkImgs_cleaned (clean_forest c) hcln t a
          ⟨[(new_filename_for PSt.empty b, b)], [(b, new_filename_for PSt.empty b)],
           [b], [new_filename_for PSt.empty b], 2⟩
        refine ⟨?_, ?_⟩
        · simp only [apply_placeholders, if_neg hb0, hn]
          rw [hwb, hwalk]
        · simp only [apply_placeholders, if_neg hb0, hn]
          rw [hwb, hwalk]
          simp [imgAttrsList, ht, imgAttrsList_dropImgs, Dom.withNext, bannerBlock,
            pyGet, List.find?]

/-- Witness for `extract_blog_content_images_banner_only` at the
Jane-Smith document: the result's `images` list is empty and no img ever
carries a non-banner alt in the output. -/
theorem extract_blog_content_images_banner_only_witness :
    ((extract_blog_content exDocJane).2.2.1
      = (match find_banner_url exDocJaneChildren with
         | some b0 =>
           if b0 = "" then []
           else
             (match normalize_url (some b0) with
              | some b => [b]
              | none => [])
         | none => [])) ∧
    ∀ alt ∈ (imgAttrsList (extract_blog_content exDocJane).1).map
        (fun a => (pyGet a "alt").getD ""), alt = "Banner" :=
  extract_blog_content_images_banner_only "[document]" [] exDocJaneChildren .nil
    (by decide)

/-- Claim C3 counterexample: at the moment placeholder assignment begins
(i.e. on the sanitized tree `apply_placeholders` receives), the img with
`alt="Jane Smith"` is still present — it was not removed before asset
placeholder assignment, contrary to the claim. -/
theorem jane_img_present_before_assignment :
    (imgAttrsList (preAssignTree exDocJane)).map (fun a => (pyGet a "alt").getD "")
      = ["Jane Smith"] := by
  decide

/-- Witness for `walkImgs_duplicate_merged`: a figure-wrapped body `img`
whose URL equals the already-seeded banner URL is merged onto
`images/image1.png`, its figure's slot marker removed and no state
allocated. -/
theorem walkImgs_duplicate_merged_witness :
    (walkImgs "figure" [("data-img-slot", "5")] exDupSt (.elem "img" exDupAttrs .nil .nil)
      = ((walkImgs "figure"
            (if "figure" = "figure" then pyDel [("data-img-slot", "5")] "data-img-slot"
             else [("data-img-slot", "5")]) exDupSt .nil).1,
         (walkImgs "figure"
            (if "figure" = "figure" then pyDel [("data-img-slot", "5")] "data-img-slot"
             else [("data-img-slot", "5")]) exDupSt .nil).2.1,
         .elem "img" (imgRewrite exDupAttrs "image1.png") .nil
           (walkImgs "figure"
              (if "figure" = "figure" then pyDel [("data-img-slot", "5")] "data-img-slot"
               else [("data-img-slot", "5")]) exDupSt .nil).2.2)) ∧
    pyGet (imgRewrite exDupAttrs "image1.png") "src" = some ("images/" ++ "image1.png") ∧
    (∃ v, pyGet (imgRewrite exDupAttrs "image1.png") "alt" = some v ∧ ¬ v = "") ∧
    ("figure" = "figure" →
      pyGet (pyDel [("data-img-slot", "5")] "data-img-slot") "data-img-slot" = none) :=
  walkImgs_duplicate_merged "figure" [("data-img-slot", "5")] exDupSt exDupAttrs
    .nil .nil "https://cdn.example/banner.png" "image1.png"
    (by decide) (by decide) (by decide)

/-- Witness for `apply_placeholders_invariants` at the `[A, B, A, C]`
body: three images, three pairwise-distinct filenames, and a consistent
filename-to-URL map. -/
theorem apply_placeholders_invariants_witness :
    (["https://cdn.example/a.png", "https://cdn.example/b.png",
      "https://cdn.example/c.png"] : List String).length
      = (["image1.png", "image2.png", "image3.png"] : List String).length ∧
    ([("image1.png", "https://cdn.example/a.png"),
      ("image2.png", "https://cdn.example/b.png"),
      ("image3.png", "https://cdn.example/c.png")] : Attrs).length
      = (["image1.png", "image2.png", "image3.png"] : List String).length ∧
    (["image1.png", "image2.png", "image3.png"] : List String).Nodup ∧
    ∀ i (h1 : i < (["image1.png", "image2.png", "image3.png"] : List String).length)
      (h2 : i < (["https://cdn.example/a.png", "https://cdn.example/b.png",
        "https://cdn.example/c.png"] : List String).length),
      pyGet [("image1.png", "https://cdn.example/a.png"),
             ("image2.png", "https://cdn.example/b.png"),
             ("image3.png", "https://cdn.example/c.png")]
          ((["image1.png", "image2.png", "image3.png"] : List String).get ⟨i, h1⟩)
        = some ((["https://cdn.example/a.png", "https://cdn.example/b.png",
            "https://cdn.example/c.png"] : List String).get ⟨i, h2⟩) :=
  apply_placeholders_invariants exBodyABAC none exBodyABACExpected
    [("image1.png", "https://cdn.example/a.png"),
     ("image2.png", "https://cdn.example/b.png"),
     ("image3.png", "https://cdn.example/c.png")]
    ["https://cdn.example/a.png", "https://cdn.example/b.png",
     "https://cdn.example/c.png"]
    ["image1.png", "image2.png", "image3.png"]
    (by decide)

end BlogScraper
